import Mathlib

/-!
Shallow embedding of `openassessment/workflow/models.py` (edx-ora2): the
assessment-workflow state machine.  Python functions that can raise are
embedded as `Except String` valued functions; Django model rows become plain
structures; calls into the pluggable assessment modules and into the
submission store are recorded in an event trace.  `django.utils.timezone.now`
is modelled by passing the current time `t : Nat` to each entry point.

Modelling notes, recorded once here:
* `ASSESSMENT_API_DICT` / `AssessmentWorkflow.STEPS` / `step.api()`:
  the source reads `settings.ORA2_ASSESSMENTS` both at import time (for
  `STEPS`) and at call time (in `api()`).  In a process whose settings do
  not mutate these coincide, so the embedding uses a single mapping
  `WorkflowConfig.apis`; a step name is recognized exactly when the mapping
  yields a module.  A configured module path that fails to import (raising
  `AssessmentApiLoadError`) is outside the model: `apis` returns the loaded
  module or `none` for the not-configured case.
* Django's `Meta ordering = ["workflow", "order_num"]` on steps is modelled
  by `sortSteps`, ordering by `order_num` with the row primary key `id` as
  the (deterministic) tie break, which is how rows come back from a
  database scan in creation order.
* `step.save()` persists one row, keyed by primary key; `writeBack` applies
  the saved rows to the stored workflow.
* `AssessmentWorkflow.STATUS = Choices(*(STEPS + ["waiting", "done"]))`:
  the lazy default-step synthesis in `_get_steps` builds its rows via
  `self.STATUS.peer` / `self.STATUS.self`, attribute accesses that raise
  `AttributeError` when the name is not a configured step name; the
  embedding surfaces this as the error path of `getSteps`.
-/

/-- Requirements sub-dictionary handed to an assessment module for one step
(`assessment_requirements.get(step.name, {})` in the source), modelled as an
association list; the empty dict is `[]`. -/
abbrev Reqs := List (String × String)

/-- Keyword parameters for a module's `on_init`
(`on_init_params.get(step.name, {})` in the source). -/
abbrev Params := List (String × String)

/-- A score as returned by a module's `get_score`: a dict with
`points_earned` and `points_possible`. -/
structure Score where
  points_earned : Nat
  points_possible : Nat
deriving DecidableEq

/-- Trace of the workflow code's outward interactions: assessment-module
hook and completion-test invocations, and score writes into the submission
store (`sub_api.set_score`). -/
inductive Event where
  | onInit (step : String)
  | onStart (step : String)
  | submitterCheck (step : String)
  | assessmentCheck (step : String)
  | getScoreCall (step : String)
  | setScore (sub : String) (earned : Nat) (possible : Nat)
deriving DecidableEq

/-- An assessment API module: the optional capability set the workflow may
use (`on_init`, `on_start`, `submitter_is_finished`, `assessment_is_finished`,
`get_score`).  Each capability is a fallible Python call. -/
structure AssessmentModule where
  on_init : Option (String → Params → Except String Unit) := none
  on_start : Option (String → Except String Unit) := none
  submitter_is_finished : Option (String → Option Reqs → Except String Bool) := none
  assessment_is_finished : Option (String → Option Reqs → Except String Bool) := none
  get_score : Option (String → Option Reqs → Except String (Option Score)) := none

/-- The submission dict returned by
`sub_api.get_submission_and_student`, restricted to the fields the
workflow reads. -/
structure Submission where
  course_id : String
  item_id : String
deriving DecidableEq

/-- Process-wide configuration: the `ORA2_ASSESSMENTS` name-to-module
mapping, the `ORA2_ASSESSMENT_SCORE_PRIORITY` list, and the external
submission store's lookup. -/
structure WorkflowConfig where
  apis : String → Option AssessmentModule
  score_priority : List String
  get_submission : String → Except String Submission

/-- One `AssessmentWorkflowStep` row.  `id` is the database primary key. -/
structure AssessmentWorkflowStep where
  id : Nat
  name : String
  order_num : Nat
  submitter_completed_at : Option Nat
  assessment_completed_at : Option Nat
deriving DecidableEq

/-- One `AssessmentWorkflow` row together with its owned step rows. -/
structure AssessmentWorkflow where
  submission_uuid : String
  status : String
  course_id : String
  item_id : String
  steps : List AssessmentWorkflowStep
deriving DecidableEq

/-- The workflow table, for `objects.get` / `objects.create`. -/
structure Db where
  workflows : List AssessmentWorkflow
deriving DecidableEq

/-! ### The steps queryset ordering (`Meta ordering = ["workflow", "order_num"]`) -/

/-- Queryset ordering on the step rows of one workflow: by `order_num`,
ties broken by primary key. -/
def stepKeyLe (a b : AssessmentWorkflowStep) : Prop :=
  a.order_num < b.order_num ∨ (a.order_num = b.order_num ∧ a.id ≤ b.id)

instance (a b : AssessmentWorkflowStep) : Decidable (stepKeyLe a b) := by
  unfold stepKeyLe
  infer_instance

/-- Insert a step row after every row preceding it in the queryset order. -/
def insertStep (x : AssessmentWorkflowStep) :
    List AssessmentWorkflowStep → List AssessmentWorkflowStep
  | [] => [x]
  | y :: ys => if stepKeyLe y x then y :: insertStep x ys else x :: y :: ys

/-- The step rows as the database returns them: sorted by the
`Meta ordering` key. -/
def sortSteps (l : List AssessmentWorkflowStep) : List AssessmentWorkflowStep :=
  l.foldr insertStep []

/-- Next free primary key for a workflow's step rows. -/
def freshId (l : List AssessmentWorkflowStep) : Nat :=
  l.foldr (fun s m => max (s.id + 1) m) 0

/-! ### `AssessmentWorkflowStep` methods -/

/-- `step.api()`: resolve this step's name to its configured assessment
module; `none` is the tolerated "no assessment configured" case. -/
def AssessmentWorkflowStep.api (cfg : WorkflowConfig) (s : AssessmentWorkflowStep) :
    Option AssessmentModule :=
  cfg.apis s.name

/-- The per-step requirements value passed into module calls:
`None` stays `None`, otherwise `assessment_requirements.get(name, {})`. -/
def getReqsFor (areqs : Option (String → Option Reqs)) (name : String) : Option Reqs :=
  match areqs with
  | none => none
  | some m => some ((m name).getD [])

/-- Result of `AssessmentWorkflowStep.update`: the step row as persisted
after the call (unchanged when the call raised before `save()`), the raised
exception if any, and the trace of module-test invocations. -/
structure StepUpdateResult where
  step : AssessmentWorkflowStep
  err : Option String
  events : List Event
deriving DecidableEq

/-- One half of `AssessmentWorkflowStep.update`: short-circuit the test when
the latch is already set, default the test to true when the module or the
capability is missing, otherwise invoke the module's test.  Returns the
test outcome (`none` when the latch made the test unnecessary), the raised
exception if any, and the invocation trace. -/
def runFinishedTest (test : Option (String → Option Reqs → Except String Bool))
    (ev : Event) (latch : Option Nat) (sub : String) (step_reqs : Option Reqs) :
    Option Bool × Option String × List Event :=
  if latch.isSome then (none, none, [])
  else
    match test with
    | none => (some true, none, [])
    | some f =>
      match f sub step_reqs with
      | .ok b => (some b, none, [ev])
      | .error e => (none, some e, [ev])

/-- `AssessmentWorkflowStep.update(submission_uuid, assessment_requirements)`:
latch `submitter_completed_at` / `assessment_completed_at` from the module's
completion tests, defaulting each missing test (or a missing module) to
true; save only if something changed, and save nothing when a test raises. -/
def AssessmentWorkflowStep.update (cfg : WorkflowConfig) (t : Nat) (sub : String)
    (areqs : Option (String → Option Reqs)) (s : AssessmentWorkflowStep) :
    StepUpdateResult :=
  match runFinishedTest ((s.api cfg).bind AssessmentModule.submitter_is_finished)
      (Event.submitterCheck s.name) s.submitter_completed_at sub (getReqsFor areqs s.name) with
  | (_, some e, ev1) => ⟨s, some e, ev1⟩
  | (r1, none, ev1) =>
    match runFinishedTest ((s.api cfg).bind AssessmentModule.assessment_is_finished)
        (Event.assessmentCheck s.name) s.assessment_completed_at sub (getReqsFor areqs s.name) with
    | (_, some e, ev2) => ⟨s, some e, ev1 ++ ev2⟩
    | (r2, none, ev2) =>
      ⟨if r2 = some true then
          { (if r1 = some true then { s with submitter_completed_at := some t } else s) with
              assessment_completed_at := some t }
        else if r1 = some true then { s with submitter_completed_at := some t } else s,
        none, ev1 ++ ev2⟩

/-! ### `AssessmentWorkflow` methods -/

/-- `AssessmentWorkflow._get_steps()`: the recognized step rows in queryset
order; when none exist, lazily persist the backwards-compatibility default
`peer -> self` pair (fresh primary keys, `order_num` 0 and 1) and return all
rows.  The default rows are built from `self.STATUS.peer` and
`self.STATUS.self`, and `STATUS = Choices(*(STEPS + ["waiting", "done"]))`
holds only the configured step names besides the two statuses: when `peer`
or `self` is not a configured step name the attribute access raises
`AttributeError` before `steps.add` runs, so nothing is persisted.  Returns
the view list together with the possibly-extended workflow, or the raised
exception. -/
def AssessmentWorkflow.getSteps (cfg : WorkflowConfig) (w : AssessmentWorkflow) :
    Except String (List AssessmentWorkflowStep × AssessmentWorkflow) :=
  let view := (sortSteps w.steps).filter fun s => (cfg.apis s.name).isSome
  if view.isEmpty then
    if (cfg.apis "peer").isSome && (cfg.apis "self").isSome then
      let f := freshId w.steps
      let w' := { w with steps :=
        w.steps ++ [⟨f, "peer", 0, none, none⟩, ⟨f + 1, "self", 1, none, none⟩] }
      .ok (sortSteps w'.steps, w')
    else .error "AttributeError"
  else .ok (view, w)

/-- The two backwards-compatibility rows `_get_steps` persists when no
recognized rows exist, as appended to the given row list. -/
def defaultRows (l : List AssessmentWorkflowStep) : List AssessmentWorkflowStep :=
  [⟨freshId l, "peer", 0, none, none⟩, ⟨freshId l + 1, "self", 1, none, none⟩]

/-- The `for step in steps: step.update(...)` loop: each completed
`step.update` persists its row; a raised exception stops the loop, leaving
later rows untouched. -/
def updateSteps (cfg : WorkflowConfig) (t : Nat) (sub : String)
    (areqs : Option (String → Option Reqs)) :
    List AssessmentWorkflowStep →
      List AssessmentWorkflowStep × Option String × List Event
  | [] => ([], none, [])
  | s :: rest =>
    match AssessmentWorkflowStep.update cfg t sub areqs s with
    | ⟨s', some e, evs⟩ => (s' :: rest, some e, evs)
    | ⟨s', none, evs⟩ =>
      match updateSteps cfg t sub areqs rest with
      | (rest', err, evs') => (s' :: rest', err, evs ++ evs')

/-- `next((step.name for step in steps if step.submitter_completed_at is None),
STATUS.waiting)` without the default. -/
def firstIncompleteName (steps : List AssessmentWorkflowStep) : Option String :=
  (steps.find? fun s => s.submitter_completed_at.isNone).map
    AssessmentWorkflowStep.name

/-- `step_for_name = {step.name: step for step in steps}` followed by
`.get(name)`: a dict comprehension keeps the last row for a duplicated
name. -/
def stepForName (steps : List AssessmentWorkflowStep) (n : String) :
    Option AssessmentWorkflowStep :=
  steps.reverse.find? fun s => s.name = n

/-- Apply the individually saved step rows back to the stored workflow:
each saved row replaces the stored row with its primary key. -/
def writeBack (w : AssessmentWorkflow) (saved : List AssessmentWorkflowStep) :
    AssessmentWorkflow :=
  { w with steps := w.steps.map fun s => (saved.find? fun s' => s'.id = s.id).getD s }

/-- The score-selection loop of `update_from_assessments`: walk the
priority list; for the first name that is among this workflow's steps and
whose module defines `get_score`, query that score and stop (the `break`
in the source is unconditional, so a `None` score also ends the search). -/
def selectScore (cfg : WorkflowConfig) (sub : String)
    (areqs : Option (String → Option Reqs)) (steps : List AssessmentWorkflowStep) :
    List String → Option Score × Option String × List Event
  | [] => (none, none, [])
  | n :: rest =>
    match stepForName steps n with
    | none => selectScore cfg sub areqs steps rest
    | some st =>
      match (st.api cfg).bind AssessmentModule.get_score with
      | none => selectScore cfg sub areqs steps rest
      | some f =>
        match f sub (getReqsFor areqs n) with
        | .ok sc => (sc, none, [Event.getScoreCall n])
        | .error e => (none, some e, [Event.getScoreCall n])

/-- Result of `update_from_assessments`: the workflow (with its step rows)
as persisted after the call — partially updated when an exception was
raised mid-way — the raised exception if any, and the outward trace. -/
structure UpdateResult where
  wf : AssessmentWorkflow
  err : Option String
  events : List Event
deriving DecidableEq

/-- Lines 261-267 of the source: look the first-incomplete status up among
the updated step objects and, when that step exists and its module defines
`on_start`, notify the module; returns the raised exception if any and the
invocation trace. -/
def onStartResult (cfg : WorkflowConfig) (sub : String)
    (view' : List AssessmentWorkflowStep) (ns : String) :
    Option String × List Event :=
  match stepForName view' ns with
  | none => (none, [])
  | some st =>
    match (st.api cfg).bind AssessmentModule.on_start with
    | none => (none, [])
    | some f =>
      match f sub with
      | .ok _ => (none, [Event.onStart st.name])
      | .error e => (some e, [Event.onStart st.name])

/-- The part of `update_from_assessments` after the step loop has succeeded
(source lines 255-308), on the already written-back workflow `w2` and the
updated step objects `view'`: compute the first step the submitter has not
completed (else `waiting`); notify that step's module via `on_start` when
defined; when waiting and fully assessed, select a score in priority order
and, if one was found, write it to the submission store and move to `done`;
finally save the status only if it changed. -/
def updateTail (cfg : WorkflowConfig) (sub : String)
    (areqs : Option (String → Option Reqs)) (w2 : AssessmentWorkflow)
    (view' : List AssessmentWorkflowStep) (evsU : List Event) : UpdateResult :=
  match onStartResult cfg sub view' ((firstIncompleteName view').getD "waiting") with
  | (some e, evsS) => ⟨w2, some e, evsU ++ evsS⟩
  | (none, evsS) =>
    if (firstIncompleteName view').getD "waiting" = "waiting" ∧
        ∀ s ∈ view', s.assessment_completed_at.isSome then
      match selectScore cfg sub areqs view' cfg.score_priority with
      | (_, some e, evsG) => ⟨w2, some e, evsU ++ evsS ++ evsG⟩
      | (some sc, none, evsG) =>
        ⟨{ w2 with status := "done" }, none,
          evsU ++ evsS ++ evsG ++
            [Event.setScore sub sc.points_earned sc.points_possible]⟩
      | (none, none, evsG) =>
        ⟨if w2.status = (firstIncompleteName view').getD "waiting" then w2
          else { w2 with status := (firstIncompleteName view').getD "waiting" },
          none, evsU ++ evsS ++ evsG⟩
    else
      ⟨if w2.status = (firstIncompleteName view').getD "waiting" then w2
        else { w2 with status := (firstIncompleteName view').getD "waiting" },
        none, evsU ++ evsS⟩

/-- `AssessmentWorkflow.update_from_assessments(assessment_requirements)`:
return immediately when done; retrieve the steps (an exception raised by
`_get_steps` propagates with nothing changed); update every step (a raised
exception keeps the rows already saved and propagates); then run the tail
computation (`updateTail`) on the written-back workflow. -/
def AssessmentWorkflow.update_from_assessments (cfg : WorkflowConfig) (t : Nat)
    (areqs : Option (String → Option Reqs)) (w : AssessmentWorkflow) : UpdateResult :=
  if w.status = "done" then ⟨w, none, []⟩
  else
    match w.getSteps cfg with
    | .error e => ⟨w, some e, []⟩
    | .ok (view, w1) =>
      let (view', errU, evsU) := updateSteps cfg t w.submission_uuid areqs view
      match errU with
      | some e => ⟨writeBack w1 view', some e, evsU⟩
      | none => updateTail cfg w.submission_uuid areqs (writeBack w1 view') view' evsU

/-- The body of the `status_details` loop: skip steps whose module does not
resolve; otherwise evaluate `assessment_requirements.get(step.name, {})` —
which raises `AttributeError` when the requirements argument is `None` —
and query both live completion tests, defaulting each missing test to
true. -/
def statusDetailsLoop (cfg : WorkflowConfig) (sub : String)
    (areqs : Option (String → Option Reqs)) :
    List AssessmentWorkflowStep → Except String (List (String × Bool × Bool))
  | [] => .ok []
  | s :: rest =>
    match cfg.apis s.name with
    | none => statusDetailsLoop cfg sub areqs rest
    | some m =>
      match areqs with
      | none => .error "AttributeError"
      | some rm =>
        let rq : Option Reqs := some ((rm s.name).getD [])
        match (m.submitter_is_finished.getD fun _ _ => .ok true) sub rq with
        | .error e => .error e
        | .ok complete =>
          match (m.assessment_is_finished.getD fun _ _ => .ok true) sub rq with
          | .error e => .error e
          | .ok graded =>
            (statusDetailsLoop cfg sub areqs rest).map
              fun l => (s.name, complete, graded) :: l

/-- `AssessmentWorkflow.status_details(assessment_requirements)`: the
per-step `{complete, graded}` projection computed from the live module
tests.  Returns the mapping (or the raised exception, including one raised
by `_get_steps` itself) together with the workflow as stored afterwards
(`_get_steps` may have persisted the lazy default steps). -/
def AssessmentWorkflow.status_details (cfg : WorkflowConfig)
    (areqs : Option (String → Option Reqs)) (w : AssessmentWorkflow) :
    Except String (List (String × Bool × Bool)) × AssessmentWorkflow :=
  match w.getSteps cfg with
  | .error e => (.error e, w)
  | .ok (view, w1) => (statusDetailsLoop cfg w.submission_uuid areqs view, w1)

/-! ### `start_workflow` and the asynchronous listener -/

/-- The step rows created by `start_workflow`: one per name, preserving
order (`order_num = i`), with fresh primary keys. -/
def mkStepsFrom (i : Nat) : List String → List AssessmentWorkflowStep
  | [] => []
  | n :: rest => ⟨i, n, i, none, none⟩ :: mkStepsFrom (i + 1) rest

/-- Replace the row with this workflow's `submission_uuid`. -/
def replaceWorkflow (db : Db) (wf : AssessmentWorkflow) : Db :=
  ⟨db.workflows.map fun w =>
    if w.submission_uuid = wf.submission_uuid then wf else w⟩

/-- The module-initialization loop of `start_workflow`: for every step whose
module resolves, call its `on_init` (defaulting to a no-op) with that step's
init params; the first such step also has the workflow status set to its
name and its module's `on_start` (defaulting to a no-op) invoked.  Any
module failure propagates. -/
def initSteps (cfg : WorkflowConfig) (sub : String)
    (params : String → Option Params) :
    List AssessmentWorkflowStep → AssessmentWorkflow → Bool →
      Except String AssessmentWorkflow × List Event
  | [], wf, _ => (.ok wf, [])
  | s :: rest, wf, started =>
    match cfg.apis s.name with
    | none => initSteps cfg sub params rest wf started
    | some m =>
      let initResult : Except String Unit × List Event :=
        match m.on_init with
        | none => (.ok (), [])
        | some f => (f sub ((params s.name).getD []), [Event.onInit s.name])
      match initResult with
      | (.error e, evs) => (.error e, evs)
      | (.ok _, evs) =>
        if started then
          let (r, evs') := initSteps cfg sub params rest wf true
          (r, evs ++ evs')
        else
          let wf1 := { wf with status := s.name }
          let startResult : Except String Unit × List Event :=
            match m.on_start with
            | none => (.ok (), [])
            | some f => (f sub, [Event.onStart s.name])
          match startResult with
          | (.error e, evs') => (.error e, evs ++ evs')
          | (.ok _, evs') =>
            let (r, evs'') := initSteps cfg sub params rest wf1 true
            (r, evs ++ evs' ++ evs'')

/-- The body of `start_workflow`, before the transaction decorator: look up
the submission, create the workflow row (status `waiting`) with the
submission's course/item copied in, create one step row per name, run the
module-initialization loop, then re-evaluate with no requirements. -/
def startWorkflowBody (cfg : WorkflowConfig) (t : Nat) (sub : String)
    (step_names : List String) (params : String → Option Params) (db : Db) :
    Except String AssessmentWorkflow × Db × List Event :=
  match cfg.get_submission sub with
  | .error e => (.error e, db, [])
  | .ok sd =>
    let steps := mkStepsFrom 0 step_names
    let wf0 : AssessmentWorkflow := ⟨sub, "waiting", sd.course_id, sd.item_id, steps⟩
    let db1 : Db := ⟨db.workflows ++ [wf0]⟩
    match initSteps cfg sub params steps wf0 false with
    | (.error e, evs) => (.error e, db1, evs)
    | (.ok wf1, evs) =>
      let db2 := replaceWorkflow db1 wf1
      let r := wf1.update_from_assessments cfg t none
      let db3 := replaceWorkflow db2 r.wf
      match r.err with
      | some e => (.error e, db3, evs ++ r.events)
      | none => (.ok r.wf, db3, evs ++ r.events)

/-- `@transaction.commit_on_success`: commit the body's writes on success;
on an exception, roll every database write back and re-raise. -/
def commitOnSuccess (f : Db → Except String AssessmentWorkflow × Db × List Event)
    (db : Db) : Except String AssessmentWorkflow × Db × List Event :=
  match f db with
  | (.error e, _, evs) => (.error e, db, evs)
  | ok => ok

/-- `AssessmentWorkflow.start_workflow(submission_uuid, step_names,
on_init_params)`: the transactional creation entry point. -/
def AssessmentWorkflow.start_workflow (cfg : WorkflowConfig) (t : Nat) (sub : String)
    (step_names : List String) (params : String → Option Params) (db : Db) :
    Except String AssessmentWorkflow × Db × List Event :=
  commitOnSuccess (startWorkflowBody cfg t sub step_names params) db

/-- `update_workflow_async(sender, **kwargs)`: the
`assessment_complete_signal` receiver.  A missing `submission_uuid`, a
missing workflow, and any exception raised while re-evaluating (the bare
`except:` in the source) are logged and swallowed; when a workflow is
found, `update_from_assessments(None)` runs and its row writes (partial on
error) persist. -/
def update_workflow_async (cfg : WorkflowConfig) (t : Nat)
    (kwargs_submission_uuid : Option String) (db : Db) : Db × List String :=
  match kwargs_submission_uuid with
  | none => (db, ["Update workflow signal called without a submission UUID"])
  | some sub =>
    match db.workflows.find? fun w => w.submission_uuid = sub with
    | none =>
      (db, ["Could not retrieve workflow for submission with UUID " ++ sub])
    | some wf =>
      let r := wf.update_from_assessments cfg t none
      match r.err with
      | none => (replaceWorkflow db r.wf, [])
      | some _ =>
        (replaceWorkflow db r.wf,
          ["Error occurred while updating the workflow for submission UUID " ++ sub])

/-! ### Concrete fixtures used by closed witnesses and counterexamples -/

/-- A configuration with no assessment modules and no submission store. -/
def cfgEmpty : WorkflowConfig := ⟨fun _ => none, [], fun _ => .error "no submission store"⟩

/-- A fully latched peer step row. -/
def stepPeerLatched : AssessmentWorkflowStep := ⟨0, "peer", 0, some 5, some 6⟩

/-- A fresh (unlatched) peer step row. -/
def stepPeerFresh : AssessmentWorkflowStep := ⟨0, "peer", 0, none, none⟩

/-- A workflow already in the terminal state. -/
def wfDone : AssessmentWorkflow := ⟨"u", "done", "c", "i", [stepPeerFresh]⟩

/-- A module defining no capabilities at all. -/
def modBare : AssessmentModule := {}

/-- A configuration resolving only the name `peer`, to the bare module. -/
def cfgPeerBare : WorkflowConfig :=
  ⟨fun n => if n = "peer" then some modBare else none, ["peer"],
    fun _ => .error "no submission store"⟩

/-- A workflow holding a single fresh peer step. -/
def wfPeerFresh : AssessmentWorkflow := ⟨"u", "peer", "c", "i", [stepPeerFresh]⟩

/-- A module whose `get_score` always reports that no score exists yet. -/
def modScoreNone : AssessmentModule := { get_score := some fun _ _ => .ok none }

/-- A module whose `get_score` returns 8/10. -/
def modScore810 : AssessmentModule := { get_score := some fun _ _ => .ok (some ⟨8, 10⟩) }

/-- Priority `[peer, self]`; peer can be asked but has no score, self has
one. -/
def cfgScorePair : WorkflowConfig :=
  ⟨fun n => if n = "peer" then some modScoreNone else
    if n = "self" then some modScore810 else none,
   ["peer", "self"], fun _ => .error "no submission store"⟩

/-- A waiting workflow whose two steps are fully assessed. -/
def wfAssessedPair : AssessmentWorkflow :=
  ⟨"sub4", "waiting", "c", "i",
   [⟨0, "peer", 0, some 1, some 1⟩, ⟨1, "self", 1, some 1, some 1⟩]⟩

/-- A peer module that defines `on_start` and never finishes. -/
def modPeerUnfinished : AssessmentModule :=
  { on_start := some fun _ => .ok (),
    submitter_is_finished := some fun _ _ => .ok false,
    assessment_is_finished := some fun _ _ => .ok false }

/-- A configuration resolving only `peer`, to `modPeerUnfinished`. -/
def cfgPeerUnfinished : WorkflowConfig :=
  ⟨fun n => if n = "peer" then some modPeerUnfinished else none, ["peer"],
    fun _ => .error "no submission store"⟩

/-- A workflow already active in its (incomplete) peer step. -/
def wfPeerActive : AssessmentWorkflow :=
  ⟨"sub5", "peer", "c", "i", [⟨0, "peer", 0, none, none⟩]⟩

/-- A workflow holding a recognized peer step and a stored step whose name
resolves to no module. -/
def wfPeerBogus : AssessmentWorkflow :=
  ⟨"u", "peer", "c", "i", [⟨0, "peer", 0, none, none⟩, ⟨1, "bogus", 1, none, none⟩]⟩

/-- A workflow with no step rows at all. -/
def wfNoSteps : AssessmentWorkflow := ⟨"u", "waiting", "c", "i", []⟩

/-- A configuration resolving both default step names, each to the bare
module. -/
def cfgPeerSelf : WorkflowConfig :=
  ⟨fun n => if n = "peer" ∨ n = "self" then some modBare else none, [],
    fun _ => .error "no submission store"⟩

/-- A module whose `on_init` raises. -/
def modInitFail : AssessmentModule :=
  { on_init := some fun _ _ => .error "init failed" }

/-- A configuration resolving only `peer`, to the failing-`on_init` module,
with a working submission store. -/
def cfgInitFail : WorkflowConfig :=
  ⟨fun n => if n = "peer" then some modInitFail else none, [],
    fun _ => .ok ⟨"c2", "i2"⟩⟩

/-- A module whose `on_start` raises. -/
def modStartFail : AssessmentModule :=
  { on_start := some fun _ => .error "start failed" }

/-- A configuration resolving only `peer`, to the failing-`on_start` module,
with a working submission store. -/
def cfgStartFail : WorkflowConfig :=
  ⟨fun n => if n = "peer" then some modStartFail else none, [],
    fun _ => .ok ⟨"c2", "i2"⟩⟩

/-! ### Lemmas about `runFinishedTest` and `AssessmentWorkflowStep.update` -/

theorem runFinishedTest_latched (test : Option (String → Option Reqs → Except String Bool))
    (ev : Event) (a : Nat) (sub : String) (rq : Option Reqs) :
    runFinishedTest test ev (some a) sub rq = (none, none, []) := by
  simp [runFinishedTest]

theorem runFinishedTest_events (test : Option (String → Option Reqs → Except String Bool))
    (ev : Event) (latch : Option Nat) (sub : String) (rq : Option Reqs) :
    (runFinishedTest test ev latch sub rq).2.2 = [] ∨
      (runFinishedTest test ev latch sub rq).2.2 = [ev] := by
  unfold runFinishedTest
  split
  · exact Or.inl rfl
  · match test with
    | none => exact Or.inl rfl
    | some f =>
      simp only
      match f sub rq with
      | .ok b => exact Or.inr rfl
      | .error e => exact Or.inr rfl

/-- An `update` that did not raise preserves the step's primary key, name
and `order_num`, and only ever turns a `none` timestamp into `some t`. -/
theorem step_update_fields (cfg : WorkflowConfig) (t : Nat) (sub : String)
    (areqs : Option (String → Option Reqs)) (s : AssessmentWorkflowStep) :
    ((s.update cfg t sub areqs).step.id = s.id ∧
      (s.update cfg t sub areqs).step.name = s.name ∧
      (s.update cfg t sub areqs).step.order_num = s.order_num) ∧
    ((s.update cfg t sub areqs).step.submitter_completed_at = s.submitter_completed_at ∨
      (s.update cfg t sub areqs).step.submitter_completed_at = some t) ∧
    ((s.update cfg t sub areqs).step.assessment_completed_at = s.assessment_completed_at ∨
      (s.update cfg t sub areqs).step.assessment_completed_at = some t) := by
  unfold AssessmentWorkflowStep.update
  rcases h1 : runFinishedTest ((s.api cfg).bind AssessmentModule.submitter_is_finished)
      (Event.submitterCheck s.name) s.submitter_completed_at sub (getReqsFor areqs s.name)
    with ⟨r1, e1, ev1⟩
  match e1 with
  | some e => simp
  | none =>
    rcases h2 : runFinishedTest ((s.api cfg).bind AssessmentModule.assessment_is_finished)
        (Event.assessmentCheck s.name) s.assessment_completed_at sub (getReqsFor areqs s.name)
      with ⟨r2, e2, ev2⟩
    match e2 with
    | some e => simp
    | none =>
      simp only
      constructor
      · refine ⟨?_, ?_, ?_⟩ <;> split <;> split <;> rfl
      constructor
      · split
        · split
          · exact Or.inr rfl
          · exact Or.inl rfl
        · split
          · exact Or.inr rfl
          · exact Or.inl rfl
      · split
        · exact Or.inr rfl
        · split <;> exact Or.inl rfl

theorem runFinishedTest_test_none (ev : Event) (latch : Option Nat) (sub : String)
    (rq : Option Reqs) :
    runFinishedTest none ev latch sub rq =
      ((if latch.isSome then none else some true), none, []) := by
  unfold runFinishedTest
  split <;> rfl

/-- C2: a latched half of a step is left alone — the timestamp is unchanged
and the corresponding module test is not invoked. -/
theorem step_update_latch_monotone (cfg : WorkflowConfig) (t : Nat) (sub : String)
    (areqs : Option (String → Option Reqs)) (s : AssessmentWorkflowStep) :
    (∀ a, s.submitter_completed_at = some a →
      (s.update cfg t sub areqs).step.submitter_completed_at = some a ∧
        Event.submitterCheck s.name ∉ (s.update cfg t sub areqs).events) ∧
    (∀ b, s.assessment_completed_at = some b →
      (s.update cfg t sub areqs).step.assessment_completed_at = some b ∧
        Event.assessmentCheck s.name ∉ (s.update cfg t sub areqs).events) := by
  constructor
  · intro a ha
    unfold AssessmentWorkflowStep.update
    rw [ha, runFinishedTest_latched]
    rcases h2 : runFinishedTest ((s.api cfg).bind AssessmentModule.assessment_is_finished)
        (Event.assessmentCheck s.name) s.assessment_completed_at sub (getReqsFor areqs s.name)
      with ⟨r2, e2, ev2⟩
    have hev : ev2 = [] ∨ ev2 = [Event.assessmentCheck s.name] := by
      have := runFinishedTest_events ((s.api cfg).bind AssessmentModule.assessment_is_finished)
        (Event.assessmentCheck s.name) s.assessment_completed_at sub (getReqsFor areqs s.name)
      rw [h2] at this
      exact this
    match e2 with
    | some e =>
      refine ⟨ha, ?_⟩
      rcases hev with h | h <;> simp [h]
    | none =>
      constructor
      · simp only
        split
        · simp [ha]
        · simp [ha]
      · simp only
        rcases hev with h | h <;> simp [h]
  · intro b hb
    unfold AssessmentWorkflowStep.update
    rcases h1 : runFinishedTest ((s.api cfg).bind AssessmentModule.submitter_is_finished)
        (Event.submitterCheck s.name) s.submitter_completed_at sub (getReqsFor areqs s.name)
      with ⟨r1, e1, ev1⟩
    have hev : ev1 = [] ∨ ev1 = [Event.submitterCheck s.name] := by
      have := runFinishedTest_events ((s.api cfg).bind AssessmentModule.submitter_is_finished)
        (Event.submitterCheck s.name) s.submitter_completed_at sub (getReqsFor areqs s.name)
      rw [h1] at this
      exact this
    match e1 with
    | some e =>
      refine ⟨hb, ?_⟩
      rcases hev with h | h <;> simp [h]
    | none =>
      rw [hb, runFinishedTest_latched]
      constructor
      · simp only
        split
        · simp_all
        · split <;> simp [hb]
      · simp only
        rcases hev with h | h <;> simp [h]

/-- C6, at the step level: a step whose module does not resolve has every
completion test defaulted to true, so both timestamps are set after the
first `update` and no module is consulted; and when the module resolves
but omits one of the two tests, that half likewise defaults to true
whenever the call does not raise. -/
theorem step_update_fail_open (cfg : WorkflowConfig) (t : Nat) (sub : String)
    (areqs : Option (String → Option Reqs)) (s : AssessmentWorkflowStep) :
    (cfg.apis s.name = none →
      (s.update cfg t sub areqs).err = none ∧
        (s.update cfg t sub areqs).step.submitter_completed_at.isSome ∧
        (s.update cfg t sub areqs).step.assessment_completed_at.isSome ∧
        (s.update cfg t sub areqs).events = []) ∧
    (∀ m, cfg.apis s.name = some m →
      (m.submitter_is_finished = none → (s.update cfg t sub areqs).err = none →
        (s.update cfg t sub areqs).step.submitter_completed_at.isSome) ∧
      (m.assessment_is_finished = none → (s.update cfg t sub areqs).err = none →
        (s.update cfg t sub areqs).step.assessment_completed_at.isSome)) := by
  have hapi : s.api cfg = cfg.apis s.name := rfl
  constructor
  · intro hnone
    unfold AssessmentWorkflowStep.update
    rw [hapi, hnone]
    simp only [Option.none_bind]
    rw [runFinishedTest_test_none, runFinishedTest_test_none]
    rcases hs : s.submitter_completed_at with _ | a <;>
      rcases ha : s.assessment_completed_at with _ | b <;>
      simp [hs, ha]
  · intro m hm
    constructor
    · intro hsub
      unfold AssessmentWorkflowStep.update
      rw [hapi, hm]
      simp only [Option.some_bind]
      rw [hsub, runFinishedTest_test_none]
      rcases h2 : runFinishedTest m.assessment_is_finished
          (Event.assessmentCheck s.name) s.assessment_completed_at sub
          (getReqsFor areqs s.name) with ⟨r2, e2, ev2⟩
      match e2 with
      | some e => simp
      | none =>
        rcases hs : s.submitter_completed_at with _ | a <;> simp only [hs] <;> intro _
        · simp only [Option.isSome_none, Bool.false_eq_true, if_false]
          split <;> simp
        · simp only [Option.isSome_some, if_true]
          split <;> simp [hs]
    · intro hass
      unfold AssessmentWorkflowStep.update
      rw [hapi, hm]
      simp only [Option.some_bind]
      rw [hass, runFinishedTest_test_none]
      rcases h1 : runFinishedTest m.submitter_is_finished
          (Event.submitterCheck s.name) s.submitter_completed_at sub
          (getReqsFor areqs s.name) with ⟨r1, e1, ev1⟩
      match e1 with
      | some e => simp
      | none =>
        rcases ha : s.assessment_completed_at with _ | b <;> simp only [ha] <;> intro _
        · simp only [Option.isSome_none, Bool.false_eq_true, if_false]
          split <;> simp
        · simp only [Option.isSome_some, if_true]
          split <;> split <;> simp [ha]

/-! ### C1: the terminal state is final -/

/-- C1: on a workflow whose status is `done`, `update_from_assessments`
returns immediately for any requirements: status stays `done`, no step row
changes, and no module hook, completion test, or score write happens (the
event trace is empty). -/
theorem update_from_assessments_done_noop (cfg : WorkflowConfig) (t : Nat)
    (areqs : Option (String → Option Reqs)) (w : AssessmentWorkflow)
    (h : w.status = "done") :
    w.update_from_assessments cfg t areqs = ⟨w, none, []⟩ := by
  unfold AssessmentWorkflow.update_from_assessments
  rw [if_pos h]

/-- Witness for C1 at a concrete done workflow. -/
theorem update_from_assessments_done_noop_witness :
    wfDone.update_from_assessments cfgEmpty 3 none = ⟨wfDone, none, []⟩ :=
  update_from_assessments_done_noop cfgEmpty 3 none wfDone rfl

/-- Witness for C2 at a concrete latched step. -/
theorem step_update_latch_monotone_witness :
    ((stepPeerLatched.update cfgEmpty 9 "s" none).step.submitter_completed_at = some 5 ∧
      Event.submitterCheck "peer" ∉ (stepPeerLatched.update cfgEmpty 9 "s" none).events) ∧
    ((stepPeerLatched.update cfgEmpty 9 "s" none).step.assessment_completed_at = some 6 ∧
      Event.assessmentCheck "peer" ∉ (stepPeerLatched.update cfgEmpty 9 "s" none).events) :=
  ⟨(step_update_latch_monotone cfgEmpty 9 "s" none stepPeerLatched).1 5 rfl,
    (step_update_latch_monotone cfgEmpty 9 "s" none stepPeerLatched).2 6 rfl⟩

/-- Witness for C6 at a concrete unconfigured step. -/
theorem step_update_fail_open_witness :
    (stepPeerFresh.update cfgEmpty 3 "s" none).err = none ∧
    (stepPeerFresh.update cfgEmpty 3 "s" none).step.submitter_completed_at.isSome ∧
    (stepPeerFresh.update cfgEmpty 3 "s" none).step.assessment_completed_at.isSome ∧
    (stepPeerFresh.update cfgEmpty 3 "s" none).events = [] :=
  (step_update_fail_open cfgEmpty 3 "s" none stepPeerFresh).1 rfl

/-! ### C10: `status_details` requires a requirements mapping -/

theorem statusDetailsLoop_none_requirements (cfg : WorkflowConfig) (sub : String) :
    ∀ l : List AssessmentWorkflowStep, (∃ s ∈ l, (cfg.apis s.name).isSome) →
      statusDetailsLoop cfg sub none l = .error "AttributeError" := by
  intro l
  induction l with
  | nil => intro h; simp at h
  | cons s rest ih =>
    intro h
    unfold statusDetailsLoop
    rcases hm : cfg.apis s.name with _ | m
    · apply ih
      rcases h with ⟨x, hx, hxs⟩
      rcases List.mem_cons.mp hx with hx | hx
      · subst hx
        rw [hm] at hxs
        simp at hxs
      · exact ⟨x, hx, hxs⟩
    · rfl


/-! ### C8: the asynchronous listener never raises -/

/-- C8: `update_workflow_async` is total — every input is handled by an
explicit log-and-return equation.  A missing `submission_uuid` and a
missing workflow leave the table untouched; when a workflow is found,
`update_from_assessments` runs with `None` requirements and its outcome —
including any raised exception — is absorbed, the saved rows kept and a
message logged, never an exception propagated. -/
theorem update_workflow_async_swallows (cfg : WorkflowConfig) (t : Nat)
    (kw : Option String) (db : Db) :
    (kw = none →
      update_workflow_async cfg t kw db =
        (db, ["Update workflow signal called without a submission UUID"])) ∧
    (∀ sub, kw = some sub →
      (db.workflows.find? (fun w => w.submission_uuid = sub) = none →
        update_workflow_async cfg t kw db =
          (db, ["Could not retrieve workflow for submission with UUID " ++ sub])) ∧
      (∀ wf, db.workflows.find? (fun w => w.submission_uuid = sub) = some wf →
        ((wf.update_from_assessments cfg t none).err = none →
          update_workflow_async cfg t kw db =
            (replaceWorkflow db (wf.update_from_assessments cfg t none).wf, [])) ∧
        (∀ e, (wf.update_from_assessments cfg t none).err = some e →
          update_workflow_async cfg t kw db =
            (replaceWorkflow db (wf.update_from_assessments cfg t none).wf,
              ["Error occurred while updating the workflow for submission UUID " ++ sub])))) := by
  refine ⟨?_, ?_⟩
  · intro h
    subst h
    rfl
  · intro sub hk
    subst hk
    refine ⟨?_, ?_⟩
    · intro hfind
      simp only [update_workflow_async, hfind]
    · intro wf hfind
      refine ⟨?_, ?_⟩
      · intro herr
        simp only [update_workflow_async, hfind, herr]
      · intro e herr
        simp only [update_workflow_async, hfind, herr]

/-- Witness for C8 at concrete inputs (missing keyword). -/
theorem update_workflow_async_swallows_witness :
    update_workflow_async cfgEmpty 0 none ⟨[]⟩ =
      (⟨[]⟩, ["Update workflow signal called without a submission UUID"]) :=
  (update_workflow_async_swallows cfgEmpty 0 none ⟨[]⟩).1 rfl

/-! ### C7: `start_workflow` is atomic -/

/-- If any listed step's module defines an `on_init` that raises, the
initialization loop of `start_workflow` raises (possibly with an earlier
step's error). -/
theorem initSteps_on_init_err (cfg : WorkflowConfig) (sub : String)
    (params : String → Option Params) :
    ∀ (steps : List AssessmentWorkflowStep) (wf : AssessmentWorkflow) (started : Bool)
      (s : AssessmentWorkflowStep), s ∈ steps →
      ∀ (m : AssessmentModule) (f : String → Params → Except String Unit) (e : String),
        cfg.apis s.name = some m → m.on_init = some f →
        f sub ((params s.name).getD []) = .error e →
        ∃ e', (initSteps cfg sub params steps wf started).1 = .error e' := by
  intro steps
  induction steps with
  | nil =>
    intro wf started s hs m f e _ _ _
    exact absurd hs (List.not_mem_nil s)
  | cons x rest ih =>
    intro wf started s hs m f e hapi hinit hferr
    rcases hx : cfg.apis x.name with _ | mx
    · have hs' : s ∈ rest := by
        rcases List.mem_cons.mp hs with rfl | hs'
        · rw [hx] at hapi
          exact absurd hapi (by simp)
        · exact hs'
      simp only [initSteps, hx]
      exact ih wf started s hs' m f e hapi hinit hferr
    · have htail : ∀ (wf' : AssessmentWorkflow) (b : Bool), s ∈ rest →
          ∃ e', (initSteps cfg sub params rest wf' b).1 = .error e' :=
        fun wf' b hs' => ih wf' b s hs' m f e hapi hinit hferr
      rcases hinitx : mx.on_init with _ | fx
      · -- the head has no on_init; s must be in the tail
        have hs' : s ∈ rest := by
          rcases List.mem_cons.mp hs with rfl | hs'
          · rw [hapi] at hx
            injection hx with hmx
            rw [← hmx, hinit] at hinitx
            exact absurd hinitx (by simp)
          · exact hs'
        cases started with
        | true =>
          rcases hr : initSteps cfg sub params rest wf true with ⟨r, evsr⟩
          obtain ⟨e', he'⟩ := htail wf true hs'
          rw [hr] at he'
          simp only [initSteps, hx, hinitx, hr, if_true]
          exact ⟨e', he'⟩
        | false =>
          rcases hstx : mx.on_start with _ | gx
          · rcases hr : initSteps cfg sub params rest { wf with status := x.name } true
              with ⟨r, evsr⟩
            obtain ⟨e', he'⟩ := htail { wf with status := x.name } true hs'
            rw [hr] at he'
            simp only [initSteps, hx, hinitx, hstx, hr]
            exact ⟨e', he'⟩
          · rcases hgx : gx sub with e0 | u
            · simp only [initSteps, hx, hinitx, hstx, hgx]
              exact ⟨e0, rfl⟩
            · rcases hr : initSteps cfg sub params rest { wf with status := x.name } true
                with ⟨r, evsr⟩
              obtain ⟨e', he'⟩ := htail { wf with status := x.name } true hs'
              rw [hr] at he'
              simp only [initSteps, hx, hinitx, hstx, hgx, hr]
              exact ⟨e', he'⟩
      · rcases hfx : fx sub ((params x.name).getD []) with e0 | u
        · simp only [initSteps, hx, hinitx, hfx]
          exact ⟨e0, rfl⟩
        · -- the head's on_init succeeded; s must be in the tail
          have hs' : s ∈ rest := by
            rcases List.mem_cons.mp hs with rfl | hs'
            · rw [hapi] at hx
              injection hx with hmx
              rw [← hmx, hinit] at hinitx
              injection hinitx with hfx2
              rw [← hfx2, hferr] at hfx
              exact absurd hfx (by simp)
            · exact hs'
          cases started with
          | true =>
            rcases hr : initSteps cfg sub params rest wf true with ⟨r, evsr⟩
            obtain ⟨e', he'⟩ := htail wf true hs'
            rw [hr] at he'
            simp only [initSteps, hx, hinitx, hfx, hr, if_true]
            exact ⟨e', he'⟩
          | false =>
            rcases hstx : mx.on_start with _ | gx
            · rcases hr : initSteps cfg sub params rest { wf with status := x.name } true
                with ⟨r, evsr⟩
              obtain ⟨e', he'⟩ := htail { wf with status := x.name } true hs'
              rw [hr] at he'
              simp only [initSteps, hx, hinitx, hfx, hstx, hr]
              exact ⟨e', he'⟩
            · rcases hgx : gx sub with e0 | u
              · simp only [initSteps, hx, hinitx, hfx, hstx, hgx]
                exact ⟨e0, rfl⟩
              · rcases hr : initSteps cfg sub params rest { wf with status := x.name } true
                  with ⟨r, evsr⟩
                obtain ⟨e', he'⟩ := htail { wf with status := x.name } true hs'
                rw [hr] at he'
                simp only [initSteps, hx, hinitx, hfx, hstx, hgx, hr]
                exact ⟨e', he'⟩

/-- If the first step whose module resolves has a non-raising (or absent)
`on_init` and an `on_start` that raises, the initialization loop of
`start_workflow` raises exactly that error. -/
theorem initSteps_on_start_err (cfg : WorkflowConfig) (sub : String)
    (params : String → Option Params) (s : AssessmentWorkflowStep)
    (m : AssessmentModule) (g : String → Except String Unit) (e : String)
    (hapi : cfg.apis s.name = some m)
    (hinitok : ∀ f, m.on_init = some f → f sub ((params s.name).getD []) = .ok ())
    (hstart : m.on_start = some g) (hge : g sub = .error e) :
    ∀ (pre : List AssessmentWorkflowStep),
      (∀ x ∈ pre, cfg.apis x.name = none) →
      ∀ (rest : List AssessmentWorkflowStep) (wf : AssessmentWorkflow),
        (initSteps cfg sub params (pre ++ s :: rest) wf false).1 = .error e := by
  intro pre
  induction pre with
  | nil =>
    intro _ rest wf
    rcases hif : m.on_init with _ | f
    · simp [initSteps, hapi, hif, hstart, hge]
    · simp [initSteps, hapi, hif, hinitok f hif, hstart, hge]
  | cons x pre' ih =>
    intro hpre rest wf
    have hx := hpre x (List.mem_cons_self x pre')
    simp only [List.cons_append, initSteps, hx]
    exact ih (fun y hy => hpre y (List.mem_cons_of_mem x hy)) rest wf

/-- C7: `start_workflow` is atomic and failures propagate.  (1) Whenever the
call returns an error the database is exactly as before — partial creation
is never observable; (2) a submission-lookup failure propagates as-is;
(3) a failure of the module-initialization loop propagates; (4) when the
loop succeeds, a failure of the closing re-evaluation propagates; (5) any
created step whose module's `on_init` raises forces an error result; (6) an
`on_start` raise on the first created step whose module resolves (its
`on_init` not raising) propagates as the result. -/
theorem start_workflow_atomic (cfg : WorkflowConfig) (t : Nat) (sub : String)
    (names : List String) (params : String → Option Params) (db : Db) :
    (∀ e, (AssessmentWorkflow.start_workflow cfg t sub names params db).1 = .error e →
      (AssessmentWorkflow.start_workflow cfg t sub names params db).2.1 = db) ∧
    (∀ e, cfg.get_submission sub = .error e →
      (AssessmentWorkflow.start_workflow cfg t sub names params db).1 = .error e) ∧
    (∀ sd, cfg.get_submission sub = .ok sd →
      ∀ e evs, initSteps cfg sub params (mkStepsFrom 0 names)
          ⟨sub, "waiting", sd.course_id, sd.item_id, mkStepsFrom 0 names⟩ false
          = (.error e, evs) →
        (AssessmentWorkflow.start_workflow cfg t sub names params db).1 = .error e) ∧
    (∀ sd, cfg.get_submission sub = .ok sd →
      ∀ wf1 evs, initSteps cfg sub params (mkStepsFrom 0 names)
          ⟨sub, "waiting", sd.course_id, sd.item_id, mkStepsFrom 0 names⟩ false
          = (.ok wf1, evs) →
        ∀ e, (wf1.update_from_assessments cfg t none).err = some e →
          (AssessmentWorkflow.start_workflow cfg t sub names params db).1 = .error e) ∧
    (∀ sd, cfg.get_submission sub = .ok sd →
      ∀ s ∈ mkStepsFrom 0 names, ∀ m f e, cfg.apis s.name = some m →
        m.on_init = some f → f sub ((params s.name).getD []) = .error e →
        ∃ e', (AssessmentWorkflow.start_workflow cfg t sub names params db).1
          = .error e') ∧
    (∀ sd, cfg.get_submission sub = .ok sd →
      ∀ pre s rest, mkStepsFrom 0 names = pre ++ s :: rest →
        (∀ x ∈ pre, cfg.apis x.name = none) →
        ∀ m, cfg.apis s.name = some m →
        (∀ f, m.on_init = some f → f sub ((params s.name).getD []) = .ok ()) →
        ∀ g e, m.on_start = some g → g sub = .error e →
        (AssessmentWorkflow.start_workflow cfg t sub names params db).1 = .error e) := by
  have hroll : ∀ e,
      (AssessmentWorkflow.start_workflow cfg t sub names params db).1 = .error e →
      (AssessmentWorkflow.start_workflow cfg t sub names params db).2.1 = db := by
    intro e he
    unfold AssessmentWorkflow.start_workflow commitOnSuccess at he ⊢
    rcases hb : startWorkflowBody cfg t sub names params db with ⟨r, db2, evs⟩
    rw [hb] at he
    match r with
    | .error e2 => rfl
    | .ok wf =>
      exact Except.noConfusion
        (show (Except.ok wf : Except String AssessmentWorkflow) = .error e from he)
  have hinitprop : ∀ sd, cfg.get_submission sub = .ok sd →
      ∀ e evs, initSteps cfg sub params (mkStepsFrom 0 names)
          ⟨sub, "waiting", sd.course_id, sd.item_id, mkStepsFrom 0 names⟩ false
          = (.error e, evs) →
        (AssessmentWorkflow.start_workflow cfg t sub names params db).1 = .error e := by
    intro sd hsd e evs hinit
    unfold AssessmentWorkflow.start_workflow commitOnSuccess startWorkflowBody
    rw [hsd]
    simp only [hinit]
  refine ⟨hroll, ?_, hinitprop, ?_, ?_, ?_⟩
  · intro e hge
    unfold AssessmentWorkflow.start_workflow commitOnSuccess startWorkflowBody
    rw [hge]
  · intro sd hsd wf1 evs hinit e herr
    unfold AssessmentWorkflow.start_workflow commitOnSuccess startWorkflowBody
    rw [hsd]
    simp only [hinit, herr]
  · intro sd hsd s hs m f e hapi hinit hferr
    obtain ⟨e2, he2⟩ := initSteps_on_init_err cfg sub params (mkStepsFrom 0 names)
      ⟨sub, "waiting", sd.course_id, sd.item_id, mkStepsFrom 0 names⟩ false
      s hs m f e hapi hinit hferr
    rcases hinit2 : initSteps cfg sub params (mkStepsFrom 0 names)
        ⟨sub, "waiting", sd.course_id, sd.item_id, mkStepsFrom 0 names⟩ false
      with ⟨r, evsr⟩
    rw [hinit2] at he2
    have hr : r = .error e2 := he2
    rw [hr] at hinit2
    exact ⟨e2, hinitprop sd hsd e2 evsr hinit2⟩
  · intro sd hsd pre s rest hsplit hpre m hapi hinitok g e hstart hge
    have he2 := initSteps_on_start_err cfg sub params s m g e hapi hinitok hstart hge
      pre hpre rest ⟨sub, "waiting", sd.course_id, sd.item_id, mkStepsFrom 0 names⟩
    rw [← hsplit] at he2
    rcases hinit2 : initSteps cfg sub params (mkStepsFrom 0 names)
        ⟨sub, "waiting", sd.course_id, sd.item_id, mkStepsFrom 0 names⟩ false
      with ⟨r, evsr⟩
    rw [hinit2] at he2
    have hr : r = .error e := he2
    rw [hr] at hinit2
    exact hinitprop sd hsd e evsr hinit2

/-- Witness for C7: a failing `on_init` hook on the single created step
aborts the call — the error result is observable and the database is
unchanged — and a lookup failure on an empty store likewise propagates. -/
theorem start_workflow_atomic_witness :
    (cfgInitFail.get_submission "u" = .ok ⟨"c2", "i2"⟩ ∧
     (⟨0, "peer", 0, none, none⟩ : AssessmentWorkflowStep) ∈ mkStepsFrom 0 ["peer"] ∧
     (∃ e', (AssessmentWorkflow.start_workflow cfgInitFail 0 "u" ["peer"]
        (fun _ => none) ⟨[]⟩).1 = .error e') ∧
     (AssessmentWorkflow.start_workflow cfgInitFail 0 "u" ["peer"]
        (fun _ => none) ⟨[]⟩).2.1 = ⟨[]⟩) ∧
    (AssessmentWorkflow.start_workflow cfgEmpty 0 "u" ["peer"] (fun _ => none) ⟨[]⟩).1 =
      .error "no submission store" :=
  ⟨⟨by rfl, by decide,
    (start_workflow_atomic cfgInitFail 0 "u" ["peer"] (fun _ => none) ⟨[]⟩).2.2.2.2.1
      ⟨"c2", "i2"⟩ (by rfl) ⟨0, "peer", 0, none, none⟩ (by decide) modInitFail
      (fun _ _ => .error "init failed") "init failed" (by rfl) (by rfl) (by rfl),
    (start_workflow_atomic cfgInitFail 0 "u" ["peer"] (fun _ => none) ⟨[]⟩).1
      "init failed" (by rfl)⟩,
   (start_workflow_atomic cfgEmpty 0 "u" ["peer"] (fun _ => none) ⟨[]⟩).2.1
     "no submission store" (by rfl)⟩

/-! ### C4: score selection stops at the first module exposing `get_score` -/

theorem stepForName_name {steps : List AssessmentWorkflowStep} {n : String}
    {st : AssessmentWorkflowStep} (h : stepForName steps n = some st) : st.name = n := by
  unfold stepForName at h
  have hp := List.find?_some h
  exact of_decide_eq_true hp

/-- C4 counterexample: all steps fully assessed, priority `[peer, self]`,
peer's module returns a null score while self's module would return 8/10.
The claim says self is still consulted and its score used; the code consults
only peer (its `get_score` call is the entire outward trace), records no
score, and stays `waiting`. -/
theorem selectScore_null_stops_counterexample :
    (wfAssessedPair.update_from_assessments cfgScorePair 7 (some fun _ => none)).wf.status
        = "waiting" ∧
    (wfAssessedPair.update_from_assessments cfgScorePair 7 (some fun _ => none)).events
        = [Event.getScoreCall "peer"] := by
  decide

/-- C4 amended: the scoring loop walks the priority list past names that are
not among this workflow's steps or whose module does not define `get_score`,
and stops at the first name that has both — using whatever that one call
returns (a null score ends the search just like a real one, without
consulting any later module). -/
theorem selectScore_stops_at_first_get_score (cfg : WorkflowConfig) (sub : String)
    (areqs : Option (String → Option Reqs)) (steps : List AssessmentWorkflowStep)
    (p₁ : List String) (n : String) (p₂ : List String)
    (f : String → Option Reqs → Except String (Option Score))
    (h₁ : ∀ m ∈ p₁, stepForName steps m = none ∨
      (cfg.apis m).bind AssessmentModule.get_score = none)
    (h₂ : (stepForName steps n).isSome)
    (h₃ : (cfg.apis n).bind AssessmentModule.get_score = some f) :
    selectScore cfg sub areqs steps (p₁ ++ n :: p₂) =
      match f sub (getReqsFor areqs n) with
      | .ok sc => (sc, none, [Event.getScoreCall n])
      | .error e => (none, some e, [Event.getScoreCall n]) := by
  revert h₁
  induction p₁ with
  | nil =>
    intro _
    unfold selectScore
    simp only [List.nil_append]
    rcases hs : stepForName steps n with _ | st
    · rw [hs] at h₂
      simp at h₂
    · have h₃' : (st.api cfg).bind AssessmentModule.get_score = some f := by
        unfold AssessmentWorkflowStep.api
        rw [stepForName_name hs]
        exact h₃
      show (match (st.api cfg).bind AssessmentModule.get_score with
        | none => selectScore cfg sub areqs steps p₂
        | some f =>
          match f sub (getReqsFor areqs n) with
          | .ok sc => (sc, none, [Event.getScoreCall n])
          | .error e => (none, some e, [Event.getScoreCall n])) = _
      rw [h₃']
  | cons m ms ih =>
    intro h₁
    have hm := h₁ m (List.mem_cons_self m ms)
    unfold selectScore
    simp only [List.cons_append]
    rcases hsm : stepForName steps m with _ | stm
    · exact ih fun m' hm' => h₁ m' (List.mem_cons_of_mem m hm')
    · rcases hm with hm | hm
      · rw [hsm] at hm
        exact absurd hm (by simp)
      · have hm' : (stm.api cfg).bind AssessmentModule.get_score = none := by
          unfold AssessmentWorkflowStep.api
          rw [stepForName_name hsm]
          exact hm
        show (match (stm.api cfg).bind AssessmentModule.get_score with
          | none => selectScore cfg sub areqs steps (ms ++ n :: p₂)
          | some f =>
            match f sub (getReqsFor areqs m) with
            | .ok sc => (sc, none, [Event.getScoreCall m])
            | .error e => (none, some e, [Event.getScoreCall m])) = _
        rw [hm']
        exact ih fun m' hmm => h₁ m' (List.mem_cons_of_mem m hmm)

/-- Witness for the amended C4 at a concrete priority list. -/
theorem selectScore_stops_at_first_get_score_witness :
    selectScore cfgScorePair "sub4" (some fun _ => none) wfAssessedPair.steps
        ["peer", "self"] = (none, none, [Event.getScoreCall "peer"]) :=
  selectScore_stops_at_first_get_score cfgScorePair "sub4" (some fun _ => none)
    wfAssessedPair.steps [] "peer" ["self"] (fun _ _ => .ok none)
    (fun m hm => absurd hm (by simp)) (by decide) rfl

/-! ### C5: `on_start` is invoked on every update, not only on transition -/

/-- C5 counterexample: the workflow is already in status `peer` and `peer`
stays the first incomplete step, so by the claim `on_start` must not be
invoked; the code invokes it anyway (there is no comparison against the
current status), and does so on every such call. -/
theorem update_on_start_unguarded_counterexample :
    wfPeerActive.status = "peer" ∧
    (wfPeerActive.update_from_assessments cfgPeerUnfinished 7 (some fun _ => none)).wf.status
        = "peer" ∧
    Event.onStart "peer" ∈
      (wfPeerActive.update_from_assessments cfgPeerUnfinished 7 (some fun _ => none)).events := by
  decide

/-- C5 amended: on every `update_from_assessments` call on a workflow that
is not done and whose step loop completes, the first-incomplete step's
module `on_start` hook — when the module defines one — is invoked,
regardless of whether that step was already the active one: the hook is
at-least-once per step across a sequence of calls, not at-most-once. -/
theorem update_on_start_always_invoked (cfg : WorkflowConfig) (t : Nat)
    (areqs : Option (String → Option Reqs)) (w : AssessmentWorkflow)
    (hdone : ¬ w.status = "done")
    (view : List AssessmentWorkflowStep) (w1 : AssessmentWorkflow)
    (hv : w.getSteps cfg = .ok (view, w1))
    (hupd : (updateSteps cfg t w.submission_uuid areqs view).2.1 = none)
    (n : String)
    (hfi : firstIncompleteName
      (updateSteps cfg t w.submission_uuid areqs view).1 = some n)
    (st : AssessmentWorkflowStep)
    (hsf : stepForName
      (updateSteps cfg t w.submission_uuid areqs view).1 n = some st)
    (f : String → Except String Unit)
    (hos : (cfg.apis st.name).bind AssessmentModule.on_start = some f) :
    Event.onStart st.name ∈ (w.update_from_assessments cfg t areqs).events := by
  unfold AssessmentWorkflow.update_from_assessments
  rw [if_neg hdone]
  rcases hu : updateSteps cfg t w.submission_uuid areqs view with ⟨view', errU, evsU⟩
  rw [hu] at hupd hfi hsf
  simp only at hupd hfi hsf
  subst hupd
  simp only [updateTail, onStartResult, hv, hu, hfi, Option.getD_some, hsf,
    AssessmentWorkflowStep.api, hos]
  cases hf : f w.submission_uuid with
  | error e => simp
  | ok u =>
    split
    · simp_all
    · split
      · split <;> aesop
      · aesop

/-- Witness for the amended C5 at a concrete workflow already in its
incomplete peer step. -/
theorem update_on_start_always_invoked_witness :
    Event.onStart "peer" ∈
      (wfPeerActive.update_from_assessments cfgPeerUnfinished 7 (some fun _ => none)).events :=
  update_on_start_always_invoked cfgPeerUnfinished 7 (some fun _ => none) wfPeerActive
    (by decide) [⟨0, "peer", 0, none, none⟩] wfPeerActive rfl (by decide) "peer"
    (by decide) ⟨0, "peer", 0, none, none⟩ (by decide) (fun _ => .ok ()) rfl

/-! ### Properties of the queryset ordering -/

theorem stepKeyLe_of_not {a b : AssessmentWorkflowStep} (h : ¬ stepKeyLe a b) :
    stepKeyLe b a := by
  unfold stepKeyLe at h ⊢
  omega

theorem stepKeyLe_trans {a b c : AssessmentWorkflowStep}
    (h₁ : stepKeyLe a b) (h₂ : stepKeyLe b c) : stepKeyLe a c := by
  unfold stepKeyLe at h₁ h₂ ⊢
  omega

theorem stepKeyLe_antisymm_id {a b : AssessmentWorkflowStep}
    (h₁ : stepKeyLe a b) (h₂ : stepKeyLe b a) : a.id = b.id := by
  unfold stepKeyLe at h₁ h₂
  omega

theorem insertStep_perm (x : AssessmentWorkflowStep) :
    ∀ l : List AssessmentWorkflowStep, List.Perm (insertStep x l) (x :: l) := by
  intro l
  induction l with
  | nil => exact List.Perm.refl _
  | cons y ys ih =>
    unfold insertStep
    split
    · exact (ih.cons y).trans (List.Perm.swap x y ys)
    · exact List.Perm.refl _

theorem sortSteps_perm (l : List AssessmentWorkflowStep) :
    List.Perm (sortSteps l) l := by
  induction l with
  | nil => exact List.Perm.refl _
  | cons x xs ih =>
    show List.Perm (insertStep x (sortSteps xs)) (x :: xs)
    exact (insertStep_perm x (sortSteps xs)).trans (ih.cons x)

theorem insertStep_pairwise (x : AssessmentWorkflowStep) :
    ∀ l : List AssessmentWorkflowStep, l.Pairwise stepKeyLe →
      (insertStep x l).Pairwise stepKeyLe := by
  intro l
  induction l with
  | nil => intro _; exact List.pairwise_singleton stepKeyLe x
  | cons y ys ih =>
    intro h
    rcases List.pairwise_cons.mp h with ⟨hy, hys⟩
    unfold insertStep
    split
    · refine List.pairwise_cons.mpr ⟨?_, ih hys⟩
      intro z hz
      rcases List.mem_cons.mp ((insertStep_perm x ys).mem_iff.mp hz) with rfl | hz'
      · assumption
      · exact hy z hz'
    · refine List.pairwise_cons.mpr ⟨?_, h⟩
      intro z hz
      rcases List.mem_cons.mp hz with rfl | hz'
      · exact stepKeyLe_of_not (by assumption)
      · exact stepKeyLe_trans (stepKeyLe_of_not (by assumption)) (hy z hz')

theorem sortSteps_pairwise (l : List AssessmentWorkflowStep) :
    (sortSteps l).Pairwise stepKeyLe := by
  induction l with
  | nil => exact List.Pairwise.nil
  | cons x xs ih => exact insertStep_pairwise x (sortSteps xs) ih

/-- Two sorted lists that are permutations of each other and have distinct
primary keys are equal: the queryset order is deterministic. -/
theorem sorted_perm_eq :
    ∀ {l₁ l₂ : List AssessmentWorkflowStep}, List.Perm l₁ l₂ →
      l₁.Pairwise stepKeyLe → l₂.Pairwise stepKeyLe →
      (l₁.map AssessmentWorkflowStep.id).Nodup → l₁ = l₂ := by
  intro l₁
  induction l₁ with
  | nil =>
    intro l₂ hp _ _ _
    exact (List.Perm.nil_eq hp).symm |>.symm ▸ rfl
  | cons a t₁ ih =>
    intro l₂ hp hs₁ hs₂ hn₁
    have hn₂ : (l₂.map AssessmentWorkflowStep.id).Nodup :=
      (hp.map AssessmentWorkflowStep.id).nodup hn₁
    match l₂ with
    | [] => exact absurd hp.symm (by simp)
    | b :: t₂ =>
      have hab : a = b := by
        have hamem : a ∈ b :: t₂ := hp.subset (List.mem_cons_self a t₁)
        rcases List.mem_cons.mp hamem with h | hat₂
        · exact h
        · have hbmem : b ∈ a :: t₁ := hp.symm.subset (List.mem_cons_self b t₂)
          rcases List.mem_cons.mp hbmem with h | hbt₁
          · exact h.symm
          · -- a is in t₂ and b is in t₁: both minimal, so ids collide
            have h₁ : stepKeyLe a b :=
              (List.pairwise_cons.mp hs₁).1 b hbt₁
            have h₂ : stepKeyLe b a :=
              (List.pairwise_cons.mp hs₂).1 a hat₂
            have hid : a.id = b.id := stepKeyLe_antisymm_id h₁ h₂
            exfalso
            have := (List.nodup_cons.mp hn₂).1
            exact this (hid ▸ List.mem_map_of_mem AssessmentWorkflowStep.id hat₂)
      subst hab
      have htail : List.Perm t₁ t₂ := (List.perm_cons a).mp hp
      have := ih htail (List.pairwise_cons.mp hs₁).2 (List.pairwise_cons.mp hs₂).2
        (List.nodup_cons.mp hn₁).2
      rw [this]

/-- Sorting an already queryset-ordered list with distinct primary keys is
the identity. -/
theorem sortSteps_eq_of_sorted {l : List AssessmentWorkflowStep}
    (hs : l.Pairwise stepKeyLe) (hn : (l.map AssessmentWorkflowStep.id).Nodup) :
    sortSteps l = l :=
  sorted_perm_eq (sortSteps_perm l) (sortSteps_pairwise l) hs
    (((sortSteps_perm l).symm.map AssessmentWorkflowStep.id).nodup hn)

theorem insertStep_map (g : AssessmentWorkflowStep → AssessmentWorkflowStep)
    (hg : ∀ s, (g s).order_num = s.order_num ∧ (g s).id = s.id)
    (x : AssessmentWorkflowStep) :
    ∀ l : List AssessmentWorkflowStep,
      insertStep (g x) (l.map g) = (insertStep x l).map g := by
  intro l
  induction l with
  | nil => rfl
  | cons y ys ih =>
    have hkey : stepKeyLe (g y) (g x) ↔ stepKeyLe y x := by
      unfold stepKeyLe
      rw [(hg y).1, (hg y).2, (hg x).1, (hg x).2]
    by_cases hc : stepKeyLe y x
    · show insertStep (g x) (g y :: ys.map g) = (insertStep x (y :: ys)).map g
      unfold insertStep
      rw [if_pos (hkey.mpr hc), if_pos hc]
      simp only [List.map_cons]
      rw [ih]
    · show insertStep (g x) (g y :: ys.map g) = (insertStep x (y :: ys)).map g
      unfold insertStep
      rw [if_neg (fun h => hc (hkey.mp h)), if_neg hc]
      simp [List.map_cons]

/-- Sorting commutes with any per-row edit that keeps the ordering key. -/
theorem sortSteps_map (g : AssessmentWorkflowStep → AssessmentWorkflowStep)
    (hg : ∀ s, (g s).order_num = s.order_num ∧ (g s).id = s.id) :
    ∀ l : List AssessmentWorkflowStep, sortSteps (l.map g) = (sortSteps l).map g := by
  intro l
  induction l with
  | nil => rfl
  | cons x xs ih =>
    show insertStep (g x) (sortSteps (xs.map g)) = (insertStep x (sortSteps xs)).map g
    rw [ih, insertStep_map g hg]

/-! ### Determinism and stability of the step-update latch -/

/-- Re-running one completion-test half after a successful run neither
latches again nor raises: an already-latched half is skipped, and an
unlatched half re-evaluates the same deterministic test to `false`. -/
theorem runFinishedTest_stable (test : Option (String → Option Reqs → Except String Bool))
    (ev : Event) (latch : Option Nat) (sub : String) (rq : Option Reqs) (t : Nat)
    (r : Option Bool) (evs : List Event)
    (h : runFinishedTest test ev latch sub rq = (r, none, evs)) :
    (runFinishedTest test ev (if r = some true then some t else latch) sub rq).1
        ≠ some true ∧
    (runFinishedTest test ev (if r = some true then some t else latch) sub rq).2.1
        = none := by
  unfold runFinishedTest at h ⊢
  split at h
  · simp only [Prod.mk.injEq] at h
    obtain ⟨h1, h2, h3⟩ := h
    subst h1
    subst h3
    simp_all
  · match htest : test with
    | none =>
      simp only [Prod.mk.injEq] at h
      obtain ⟨h1, h2, h3⟩ := h
      subst h1
      subst h3
      simp_all
    | some f =>
      match hf : f sub rq with
      | .ok b =>
        simp only [hf, Prod.mk.injEq] at h
        obtain ⟨h1, h2, h3⟩ := h
        subst h1
        subst h3
        match b with
        | true => simp_all
        | false => simp_all
      | .error e =>
        simp only [hf, Prod.mk.injEq] at h
        obtain ⟨h1, h2, h3⟩ := h
        exact absurd h2 (by simp)

/-- Closed form of a non-raising `AssessmentWorkflowStep.update`: each half
latches to `now()` exactly when its test answered true. -/
theorem step_update_ok_char (cfg : WorkflowConfig) (t : Nat) (sub : String)
    (areqs : Option (String → Option Reqs)) (s : AssessmentWorkflowStep)
    (r1 : Option Bool) (ev1 : List Event) (r2 : Option Bool) (ev2 : List Event)
    (h1 : runFinishedTest ((s.api cfg).bind AssessmentModule.submitter_is_finished)
      (Event.submitterCheck s.name) s.submitter_completed_at sub (getReqsFor areqs s.name)
      = (r1, none, ev1))
    (h2 : runFinishedTest ((s.api cfg).bind AssessmentModule.assessment_is_finished)
      (Event.assessmentCheck s.name) s.assessment_completed_at sub (getReqsFor areqs s.name)
      = (r2, none, ev2)) :
    s.update cfg t sub areqs =
      ⟨⟨s.id, s.name, s.order_num,
         if r1 = some true then some t else s.submitter_completed_at,
         if r2 = some true then some t else s.assessment_completed_at⟩,
       none, ev1 ++ ev2⟩ := by
  unfold AssessmentWorkflowStep.update
  rw [h1, h2]
  by_cases hr1 : r1 = some true <;> by_cases hr2 : r2 = some true <;>
    simp [hr1, hr2]

/-- A non-raising `update` is produced by two non-raising test halves. -/
theorem step_update_ok_elim (cfg : WorkflowConfig) (t : Nat) (sub : String)
    (areqs : Option (String → Option Reqs)) (s : AssessmentWorkflowStep)
    (h : (s.update cfg t sub areqs).err = none) :
    ∃ r1 ev1 r2 ev2,
      runFinishedTest ((s.api cfg).bind AssessmentModule.submitter_is_finished)
        (Event.submitterCheck s.name) s.submitter_completed_at sub (getReqsFor areqs s.name)
        = (r1, none, ev1) ∧
      runFinishedTest ((s.api cfg).bind AssessmentModule.assessment_is_finished)
        (Event.assessmentCheck s.name) s.assessment_completed_at sub (getReqsFor areqs s.name)
        = (r2, none, ev2) := by
  unfold AssessmentWorkflowStep.update at h
  rcases h1 : runFinishedTest ((s.api cfg).bind AssessmentModule.submitter_is_finished)
      (Event.submitterCheck s.name) s.submitter_completed_at sub (getReqsFor areqs s.name)
    with ⟨r1, e1, ev1⟩
  rw [h1] at h
  match e1 with
  | some e => simp at h
  | none =>
    rcases h2 : runFinishedTest ((s.api cfg).bind AssessmentModule.assessment_is_finished)
        (Event.assessmentCheck s.name) s.assessment_completed_at sub (getReqsFor areqs s.name)
      with ⟨r2, e2, ev2⟩
    rw [h2] at h
    match e2 with
    | some e => simp at h
    | none => exact ⟨r1, ev1, r2, ev2, rfl, rfl⟩

/-- A step row written by a successful `update` is a fixed point of any
later `update` with the same requirements: the tests are deterministic, so
neither half latches again and nothing is raised. -/
theorem step_update_fixpoint (cfg : WorkflowConfig) (t₁ t₂ : Nat) (sub : String)
    (areqs : Option (String → Option Reqs)) (s : AssessmentWorkflowStep)
    (h : (s.update cfg t₁ sub areqs).err = none) :
    ((s.update cfg t₁ sub areqs).step.update cfg t₂ sub areqs).step =
      (s.update cfg t₁ sub areqs).step ∧
    ((s.update cfg t₁ sub areqs).step.update cfg t₂ sub areqs).err = none := by
  obtain ⟨r1, ev1, r2, ev2, h1, h2⟩ := step_update_ok_elim cfg t₁ sub areqs s h
  have hchar := step_update_ok_char cfg t₁ sub areqs s r1 ev1 r2 ev2 h1 h2
  rw [hchar]
  have hst1 := runFinishedTest_stable ((s.api cfg).bind AssessmentModule.submitter_is_finished)
    (Event.submitterCheck s.name) s.submitter_completed_at sub (getReqsFor areqs s.name)
    t₁ r1 ev1 h1
  have hst2 := runFinishedTest_stable ((s.api cfg).bind AssessmentModule.assessment_is_finished)
    (Event.assessmentCheck s.name) s.assessment_completed_at sub (getReqsFor areqs s.name)
    t₁ r2 ev2 h2
  rcases h1' : runFinishedTest ((s.api cfg).bind AssessmentModule.submitter_is_finished)
      (Event.submitterCheck s.name)
      (if r1 = some true then some t₁ else s.submitter_completed_at) sub
      (getReqsFor areqs s.name)
    with ⟨r1', e1', ev1'⟩
  rw [h1'] at hst1
  rcases h2' : runFinishedTest ((s.api cfg).bind AssessmentModule.assessment_is_finished)
      (Event.assessmentCheck s.name)
      (if r2 = some true then some t₁ else s.assessment_completed_at) sub
      (getReqsFor areqs s.name)
    with ⟨r2', e2', ev2'⟩
  rw [h2'] at hst2
  obtain ⟨hr1', he1'⟩ := hst1
  obtain ⟨hr2', he2'⟩ := hst2
  simp only at hr1' he1' hr2' he2'
  subst he1'
  subst he2'
  have hchar2 := step_update_ok_char cfg t₂ sub areqs
    ⟨s.id, s.name, s.order_num,
      if r1 = some true then some t₁ else s.submitter_completed_at,
      if r2 = some true then some t₁ else s.assessment_completed_at⟩
    r1' ev1' r2' ev2' h1' h2'
  rw [hchar2]
  constructor
  · simp only
    rw [if_neg hr1', if_neg hr2']
  · rfl

/-- When the step loop completes without raising, every step updated
without raising and the updated objects are the per-step updates in
order. -/
theorem updateSteps_ok_elim (cfg : WorkflowConfig) (t : Nat) (sub : String)
    (areqs : Option (String → Option Reqs)) :
    ∀ (l view' : List AssessmentWorkflowStep) (evs : List Event),
      updateSteps cfg t sub areqs l = (view', none, evs) →
      (∀ s ∈ l, (s.update cfg t sub areqs).err = none) ∧
      view' = l.map fun s => (s.update cfg t sub areqs).step := by
  intro l
  induction l with
  | nil =>
    intro view' evs h
    unfold updateSteps at h
    simp only [Prod.mk.injEq] at h
    obtain ⟨h1, -, -⟩ := h
    exact ⟨by simp, h1.symm⟩
  | cons s rest ih =>
    intro view' evs h
    unfold updateSteps at h
    rcases hs : AssessmentWorkflowStep.update cfg t sub areqs s with ⟨s', e, evsS⟩
    rw [hs] at h
    match e, h with
    | none, h =>
      rcases hr : updateSteps cfg t sub areqs rest with ⟨rest', err, evs'⟩
      rw [hr] at h
      simp only [Prod.mk.injEq] at h
      obtain ⟨h1, h2, h3⟩ := h
      obtain ⟨hall, hmap⟩ := ih rest' evs' (by rw [hr, h2])
      constructor
      · intro x hx
        rcases List.mem_cons.mp hx with rfl | hx'
        · rw [hs]
        · exact hall x hx'
      · rw [← h1, hmap]
        simp [hs]
    | some e, h =>
      simp only [Prod.mk.injEq] at h
      obtain ⟨-, h2, -⟩ := h
      exact absurd h2 (by simp)

/-- Conversely, when every step updates without raising, the loop completes
and returns the per-step updates in order. -/
theorem updateSteps_all_ok (cfg : WorkflowConfig) (t : Nat) (sub : String)
    (areqs : Option (String → Option Reqs)) :
    ∀ l : List AssessmentWorkflowStep,
      (∀ s ∈ l, (s.update cfg t sub areqs).err = none) →
      ∃ evs, updateSteps cfg t sub areqs l =
        (l.map fun s => (s.update cfg t sub areqs).step, none, evs) := by
  intro l
  induction l with
  | nil => intro _; exact ⟨[], rfl⟩
  | cons s rest ih =>
    intro hall
    obtain ⟨evs, hrest⟩ := ih fun x hx => hall x (List.mem_cons_of_mem s hx)
    refine ⟨(s.update cfg t sub areqs).events ++ evs, ?_⟩
    unfold updateSteps
    rcases hs : AssessmentWorkflowStep.update cfg t sub areqs s with ⟨s', e, evsS⟩
    have he : e = none := by
      have := hall s (List.mem_cons_self s rest)
      rw [hs] at this
      exact this
    subst he
    rw [hrest]
    simp [hs]

/-! ### Write-back of saved step rows -/

theorem mem_id_lt_freshId : ∀ l : List AssessmentWorkflowStep, ∀ s ∈ l, s.id < freshId l := by
  intro l
  induction l with
  | nil => simp
  | cons x xs ih =>
    intro s hs
    show s.id < max (x.id + 1) (freshId xs)
    rcases List.mem_cons.mp hs with rfl | hs'
    · exact Nat.lt_of_lt_of_le (Nat.lt_succ_self s.id) (le_max_left _ _)
    · exact Nat.lt_of_lt_of_le (ih s hs') (le_max_right _ _)

/-- Looking a row's primary key up among the saved images of the filtered
view finds exactly the saved image of that row (when the keys are
distinct). -/
theorem find_saved_row (u : AssessmentWorkflowStep → AssessmentWorkflowStep)
    (hu : ∀ x, (u x).id = x.id) (p : AssessmentWorkflowStep → Bool) :
    ∀ S : List AssessmentWorkflowStep, (S.map AssessmentWorkflowStep.id).Nodup →
      ∀ s ∈ S,
        ((S.filter p).map u).find? (fun s' => s'.id = s.id) =
          if p s then some (u s) else none := by
  intro S
  induction S with
  | nil => intro _ s hs; simp at hs
  | cons x xs ih =>
    intro hn s hs
    have hn' : (xs.map AssessmentWorkflowStep.id).Nodup := (List.nodup_cons.mp hn).2
    have hxid : x.id ∉ xs.map AssessmentWorkflowStep.id := (List.nodup_cons.mp hn).1
    rcases List.mem_cons.mp hs with rfl | hs'
    · by_cases hp : p s
      · rw [List.filter_cons_of_pos hp, List.map_cons, if_pos hp]
        simp [List.find?, hu s]
      · rw [List.filter_cons_of_neg hp, if_neg hp]
        apply List.find?_eq_none.mpr
        intro y hy
        obtain ⟨z, hz, rfl⟩ := List.mem_map.mp hy
        have hzxs : z ∈ xs := List.mem_of_mem_filter hz
        simp only [hu z, decide_eq_true_eq]
        intro heq
        exact hxid (heq ▸ List.mem_map_of_mem AssessmentWorkflowStep.id hzxs)
    · by_cases hp : p x
      · rw [List.filter_cons_of_pos hp, List.map_cons]
        have hne : (u x).id ≠ s.id := by
          rw [hu x]
          intro heq
          exact hxid (heq ▸ List.mem_map_of_mem AssessmentWorkflowStep.id hs')
        rw [show List.find? (fun s' => decide (s'.id = s.id))
            (u x :: List.map u (List.filter p xs)) =
            List.find? (fun s' => decide (s'.id = s.id))
              (List.map u (List.filter p xs)) from by simp [List.find?, hne]]
        exact ih hn' s hs'
      · rw [List.filter_cons_of_neg hp]
        exact ih hn' s hs'

/-- Saving the updated filtered view rows back into the workflow applies
the update exactly to the rows passing the filter. -/
theorem writeBack_eq (w1 : AssessmentWorkflow)
    (u : AssessmentWorkflowStep → AssessmentWorkflowStep)
    (hu : ∀ x, (u x).id = x.id) (p : AssessmentWorkflowStep → Bool)
    (hn : (w1.steps.map AssessmentWorkflowStep.id).Nodup) :
    writeBack w1 (((sortSteps w1.steps).filter p).map u) =
      { w1 with steps := w1.steps.map fun s => if p s then u s else s } := by
  unfold writeBack
  have hnS : ((sortSteps w1.steps).map AssessmentWorkflowStep.id).Nodup :=
    (((sortSteps_perm w1.steps).symm).map AssessmentWorkflowStep.id).nodup hn
  have : w1.steps.map
      (fun s => ((((sortSteps w1.steps).filter p).map u).find?
        fun s' => s'.id = s.id).getD s) =
      w1.steps.map fun s => if p s then u s else s := by
    apply List.map_congr_left
    intro s hs
    have hsS : s ∈ sortSteps w1.steps := (sortSteps_perm w1.steps).mem_iff.mpr hs
    rw [find_saved_row u hu p _ hnS s hsS]
    by_cases hp : p s
    · rw [if_pos hp, if_pos hp, Option.getD_some]
    · rw [if_neg hp, if_neg hp]
      rfl
  rw [this]

/-- `_get_steps` when recognized rows exist: the filtered, ordered view,
with the workflow unchanged. -/
theorem getSteps_nonempty (cfg : WorkflowConfig) (w : AssessmentWorkflow)
    (h : (sortSteps w.steps).filter (fun s => (cfg.apis s.name).isSome) ≠ []) :
    w.getSteps cfg =
      .ok ((sortSteps w.steps).filter (fun s => (cfg.apis s.name).isSome), w) := by
  unfold AssessmentWorkflow.getSteps
  rw [if_neg (by simpa using h)]

/-- `_get_steps` when no recognized rows exist and both `peer` and `self`
are configured step names: the default `peer -> self` rows are persisted
and all rows are returned in queryset order. -/
theorem getSteps_empty (cfg : WorkflowConfig) (w : AssessmentWorkflow)
    (h : (sortSteps w.steps).filter (fun s => (cfg.apis s.name).isSome) = [])
    (hps : ((cfg.apis "peer").isSome && (cfg.apis "self").isSome) = true) :
    w.getSteps cfg =
      .ok (sortSteps (w.steps ++
        [⟨freshId w.steps, "peer", 0, none, none⟩,
         ⟨freshId w.steps + 1, "self", 1, none, none⟩]),
       { w with steps := w.steps ++
        [⟨freshId w.steps, "peer", 0, none, none⟩,
         ⟨freshId w.steps + 1, "self", 1, none, none⟩] }) := by
  unfold AssessmentWorkflow.getSteps
  rw [if_pos (by simpa using h), if_pos hps]

/-- `_get_steps` when no recognized rows exist and `peer` or `self` is not
a configured step name: the `self.STATUS.peer` / `self.STATUS.self`
attribute access raises before `steps.add` runs; nothing is persisted. -/
theorem getSteps_empty_err (cfg : WorkflowConfig) (w : AssessmentWorkflow)
    (h : (sortSteps w.steps).filter (fun s => (cfg.apis s.name).isSome) = [])
    (hps : ¬ ((cfg.apis "peer").isSome && (cfg.apis "self").isSome) = true) :
    w.getSteps cfg = .error "AttributeError" := by
  unfold AssessmentWorkflow.getSteps
  rw [if_pos (by simpa using h), if_neg hps]

/-- C10: `status_details(None)` raises an `AttributeError` instead of
returning a mapping — in particular on every workflow with at least one
recognized step whose module resolves, where `None.get(...)` raises at the
first step of the view; when no stored row is recognized, either the lazy
synthesis itself raises (`self.STATUS.peer`/`self.STATUS.self` on an
unconfigured name) or the synthesized recognized `peer` row reaches the
same `None.get(...)` raise. -/
theorem status_details_none_raises (cfg : WorkflowConfig) (w : AssessmentWorkflow) :
    (w.status_details cfg none).1 = .error "AttributeError" := by
  by_cases hfe : (sortSteps w.steps).filter (fun s => (cfg.apis s.name).isSome) = []
  · by_cases hps : ((cfg.apis "peer").isSome && (cfg.apis "self").isSome) = true
    · unfold AssessmentWorkflow.status_details
      rw [getSteps_empty cfg w hfe hps]
      refine statusDetailsLoop_none_requirements cfg w.submission_uuid _
        ⟨⟨freshId w.steps, "peer", 0, none, none⟩, ?_, ?_⟩
      · exact (sortSteps_perm _).mem_iff.mpr (List.mem_append_right _ (by simp))
      · simpa using ((Bool.and_eq_true _ _).mp hps).1
    · unfold AssessmentWorkflow.status_details
      rw [getSteps_empty_err cfg w hfe hps]
  · unfold AssessmentWorkflow.status_details
    rw [getSteps_nonempty cfg w hfe]
    rcases hl : (sortSteps w.steps).filter (fun s => (cfg.apis s.name).isSome)
      with _ | ⟨s0, rest⟩
    · exact absurd hl hfe
    · have hs0 : s0 ∈ (sortSteps w.steps).filter (fun s => (cfg.apis s.name).isSome) := by
        rw [hl]
        exact List.mem_cons_self _ _
      have hp0 : (cfg.apis s0.name).isSome := by
        simpa using (List.mem_filter.mp hs0).2
      exact statusDetailsLoop_none_requirements cfg w.submission_uuid _
        ⟨s0, hs0, hp0⟩

/-- Witness for C10 at a concrete workflow with a resolvable step. -/
theorem status_details_none_raises_witness :
    (wfPeerFresh.status_details cfgPeerBare none).1 = .error "AttributeError" :=
  status_details_none_raises cfgPeerBare wfPeerFresh

/-! ### Congruence facts: unrecognized rows never matter to the tail -/

theorem stepForName_mem {l : List AssessmentWorkflowStep} {n : String}
    {st : AssessmentWorkflowStep} (h : stepForName l n = some st) : st ∈ l := by
  unfold stepForName at h
  exact List.mem_reverse.mp (List.mem_of_find?_eq_some h)

theorem stepForName_eq_none_iff {l : List AssessmentWorkflowStep} {n : String} :
    stepForName l n = none ↔ ∀ s ∈ l, s.name ≠ n := by
  unfold stepForName
  rw [List.find?_eq_none]
  constructor
  · intro h s hs
    simpa using h s (List.mem_reverse.mpr hs)
  · intro h s hs
    simpa using h s (List.mem_reverse.mp hs)

theorem stepForName_isSome_iff {l : List AssessmentWorkflowStep} {n : String} :
    (stepForName l n).isSome ↔ ∃ s ∈ l, s.name = n := by
  rcases h : stepForName l n with _ | st
  · simp only [Option.isSome_none, Bool.false_eq_true, false_iff]
    intro ⟨s, hs, hn⟩
    exact stepForName_eq_none_iff.mp h s hs hn
  · simp only [Option.isSome_some, true_iff]
    exact ⟨st, stepForName_mem h, stepForName_name h⟩

theorem firstIncompleteName_eq_none_iff (l : List AssessmentWorkflowStep) :
    firstIncompleteName l = none ↔ ∀ s ∈ l, s.submitter_completed_at.isSome := by
  unfold firstIncompleteName
  rw [Option.map_eq_none', List.find?_eq_none]
  constructor
  · intro h s hs
    have := h s hs
    rcases hv : s.submitter_completed_at with _ | v
    · rw [hv] at this
      simp at this
    · simp
  · intro h s hs
    have := h s hs
    rcases hv : s.submitter_completed_at with _ | v
    · rw [hv] at this
      simp at this
    · simp

theorem firstIncompleteName_filter (pb : AssessmentWorkflowStep → Bool) :
    ∀ l : List AssessmentWorkflowStep,
      (∀ s ∈ l, pb s = false → s.submitter_completed_at.isSome) →
      firstIncompleteName (l.filter pb) = firstIncompleteName l := by
  intro l
  induction l with
  | nil => intro _; rfl
  | cons x xs ih =>
    intro h
    have hxs := fun s hs hp => h s (List.mem_cons_of_mem x hs) hp
    by_cases hp : pb x
    · rw [List.filter_cons_of_pos hp]
      by_cases hx : x.submitter_completed_at.isNone
      · unfold firstIncompleteName
        rw [List.find?_cons_of_pos, List.find?_cons_of_pos] <;> simpa using hx
      · unfold firstIncompleteName
        rw [List.find?_cons_of_neg, List.find?_cons_of_neg]
        · exact ih hxs
        · simpa using hx
        · simpa using hx
    · rw [List.filter_cons_of_neg hp]
      have hx : ¬ x.submitter_completed_at.isNone := by
        have := h x (List.mem_cons_self x xs) (by simpa using hp)
        simp [Option.isNone_iff_eq_none, ← Option.not_isSome_iff_eq_none, this]
      rw [ih hxs]
      unfold firstIncompleteName
      rw [List.find?_cons_of_neg]
      simpa using hx

theorem onStartResult_congr (cfg : WorkflowConfig) (sub : String)
    (l₁ l₂ : List AssessmentWorkflowStep) (n : String)
    (h : (stepForName l₁ n).isSome = (stepForName l₂ n).isSome) :
    onStartResult cfg sub l₁ n = onStartResult cfg sub l₂ n := by
  unfold onStartResult
  rcases h1 : stepForName l₁ n with _ | st₁ <;>
    rcases h2 : stepForName l₂ n with _ | st₂
  · rfl
  · rw [h1, h2] at h
    simp at h
  · rw [h1, h2] at h
    simp at h
  · have e1 : st₁.name = n := stepForName_name h1
    have e2 : st₂.name = n := stepForName_name h2
    simp only [AssessmentWorkflowStep.api, e1, e2]

/-- Filtering out the rows whose module does not resolve cannot change the
`on_start` notification: such a row's module has no `on_start` anyway. -/
theorem onStartResult_filter (cfg : WorkflowConfig) (sub : String)
    (l : List AssessmentWorkflowStep) (n : String) :
    onStartResult cfg sub (l.filter fun s => (cfg.apis s.name).isSome) n =
      onStartResult cfg sub l n := by
  rcases h2 : stepForName l n with _ | st
  · refine onStartResult_congr cfg sub _ l n ?_
    rw [h2]
    have : stepForName (l.filter fun s => (cfg.apis s.name).isSome) n = none := by
      rw [stepForName_eq_none_iff]
      intro s hs
      exact stepForName_eq_none_iff.mp h2 s (List.mem_of_mem_filter hs)
    rw [this]
  · rcases h1 : stepForName (l.filter fun s => (cfg.apis s.name).isSome) n
      with _ | st'
    · -- every row named n failed the filter, so the module is unconfigured
      have hnone : cfg.apis n = none := by
        by_contra hne
        have hmem : st ∈ l := stepForName_mem h2
        have hp : (cfg.apis st.name).isSome := by
          rw [stepForName_name h2]
          exact Option.isSome_iff_ne_none.mpr hne
        have : (stepForName (l.filter fun s => (cfg.apis s.name).isSome) n).isSome := by
          rw [stepForName_isSome_iff]
          exact ⟨st, List.mem_filter.mpr ⟨hmem, by simpa using hp⟩, stepForName_name h2⟩
        rw [h1] at this
        simp at this
      unfold onStartResult
      rw [h1, h2]
      simp only [AssessmentWorkflowStep.api, stepForName_name h2, hnone, Option.none_bind]
    · refine onStartResult_congr cfg sub _ l n ?_
      rw [h1, h2]
      rfl

theorem all_assessed_filter (pb : AssessmentWorkflowStep → Bool)
    (l : List AssessmentWorkflowStep)
    (h : ∀ s ∈ l, pb s = false → s.assessment_completed_at.isSome) :
    (∀ s ∈ l.filter pb, s.assessment_completed_at.isSome) ↔
      (∀ s ∈ l, s.assessment_completed_at.isSome) := by
  constructor
  · intro hf s hs
    by_cases hp : pb s
    · exact hf s (List.mem_filter.mpr ⟨hs, hp⟩)
    · exact h s hs (by simpa using hp)
  · intro hall s hs
    exact hall s (List.mem_of_mem_filter hs)

/-- Filtering out the rows whose module does not resolve cannot change the
score search: such rows can never supply `get_score`. -/
theorem selectScore_filter (cfg : WorkflowConfig) (sub : String)
    (areqs : Option (String → Option Reqs)) (l : List AssessmentWorkflowStep) :
    ∀ names, selectScore cfg sub areqs
        (l.filter fun s => (cfg.apis s.name).isSome) names =
      selectScore cfg sub areqs l names := by
  intro names
  induction names with
  | nil => rfl
  | cons n rest ih =>
    unfold selectScore
    rcases h2 : stepForName l n with _ | st
    · have h1 : stepForName (l.filter fun s => (cfg.apis s.name).isSome) n = none := by
        rw [stepForName_eq_none_iff]
        intro s hs
        exact stepForName_eq_none_iff.mp h2 s (List.mem_of_mem_filter hs)
      rw [h1]
      exact ih
    · rcases h1 : stepForName (l.filter fun s => (cfg.apis s.name).isSome) n
        with _ | st'
      · have hnone : cfg.apis n = none := by
          by_contra hne
          have hmem : st ∈ l := stepForName_mem h2
          have hp : (cfg.apis st.name).isSome := by
            rw [stepForName_name h2]
            exact Option.isSome_iff_ne_none.mpr hne
          have : (stepForName (l.filter fun s => (cfg.apis s.name).isSome) n).isSome := by
            rw [stepForName_isSome_iff]
            exact ⟨st, List.mem_filter.mpr ⟨hmem, by simpa using hp⟩, stepForName_name h2⟩
          rw [h1] at this
          simp at this
        simp only [AssessmentWorkflowStep.api, stepForName_name h2, hnone,
          Option.none_bind]
        exact ih
      · simp only [AssessmentWorkflowStep.api, stepForName_name h1,
          stepForName_name h2]
        rcases (cfg.apis n).bind AssessmentModule.get_score with _ | f
        · exact ih
        · rfl

/-- A step list whose every row is unconfigured can never produce a score:
the search walks the whole priority list and comes back empty. -/
theorem selectScore_unconfigured (cfg : WorkflowConfig) (sub : String)
    (areqs : Option (String → Option Reqs)) (steps : List AssessmentWorkflowStep)
    (h : ∀ s ∈ steps, cfg.apis s.name = none) :
    ∀ names, selectScore cfg sub areqs steps names = (none, none, []) := by
  intro names
  induction names with
  | nil => rfl
  | cons n rest ih =>
    unfold selectScore
    rcases hs : stepForName steps n with _ | st
    · exact ih
    · have := h st (stepForName_mem hs)
      simp only [AssessmentWorkflowStep.api, this, Option.none_bind]
      exact ih

/-! ### The tail computation, branch by branch -/

theorem statusWrite_status (w2 : AssessmentWorkflow) (ns : String) :
    (if w2.status = ns then w2 else { w2 with status := ns }).status = ns := by
  split
  · assumption
  · rfl

theorem updateTail_onstart_err (cfg : WorkflowConfig) (sub : String)
    (areqs : Option (String → Option Reqs)) (w2 : AssessmentWorkflow)
    (view' : List AssessmentWorkflowStep) (evsU : List Event)
    (e : String) (evsS : List Event)
    (hos : onStartResult cfg sub view' ((firstIncompleteName view').getD "waiting")
      = (some e, evsS)) :
    updateTail cfg sub areqs w2 view' evsU = ⟨w2, some e, evsU ++ evsS⟩ := by
  unfold updateTail
  rw [hos]

theorem updateTail_no_scoring (cfg : WorkflowConfig) (sub : String)
    (areqs : Option (String → Option Reqs)) (w2 : AssessmentWorkflow)
    (view' : List AssessmentWorkflowStep) (evsU : List Event) (evsS : List Event)
    (hos : onStartResult cfg sub view' ((firstIncompleteName view').getD "waiting")
      = (none, evsS))
    (hc : ¬ ((firstIncompleteName view').getD "waiting" = "waiting" ∧
      ∀ s ∈ view', s.assessment_completed_at.isSome)) :
    updateTail cfg sub areqs w2 view' evsU =
      ⟨if w2.status = (firstIncompleteName view').getD "waiting" then w2
        else { w2 with status := (firstIncompleteName view').getD "waiting" },
       none, evsU ++ evsS⟩ := by
  unfold updateTail
  rw [hos]
  split
  · rename_i e' evsS' heq
    exact absurd heq (by simp)
  · rename_i evsS' heq
    injection heq with h1 h2
    subst h2
    rw [if_neg hc]

theorem updateTail_score_none (cfg : WorkflowConfig) (sub : String)
    (areqs : Option (String → Option Reqs)) (w2 : AssessmentWorkflow)
    (view' : List AssessmentWorkflowStep) (evsU : List Event) (evsS : List Event)
    (evsG : List Event)
    (hos : onStartResult cfg sub view' ((firstIncompleteName view').getD "waiting")
      = (none, evsS))
    (hc : (firstIncompleteName view').getD "waiting" = "waiting" ∧
      ∀ s ∈ view', s.assessment_completed_at.isSome)
    (hsel : selectScore cfg sub areqs view' cfg.score_priority = (none, none, evsG)) :
    updateTail cfg sub areqs w2 view' evsU =
      ⟨if w2.status = (firstIncompleteName view').getD "waiting" then w2
        else { w2 with status := (firstIncompleteName view').getD "waiting" },
       none, evsU ++ evsS ++ evsG⟩ := by
  unfold updateTail
  rw [hos]
  split
  · rename_i e' evsS' heq
    exact absurd heq (by simp)
  · rename_i evsS' heq
    injection heq with h1 h2
    subst h2
    rw [if_pos hc, hsel]

theorem updateTail_score_some (cfg : WorkflowConfig) (sub : String)
    (areqs : Option (String → Option Reqs)) (w2 : AssessmentWorkflow)
    (view' : List AssessmentWorkflowStep) (evsU : List Event) (evsS : List Event)
    (evsG : List Event) (sc : Score)
    (hos : onStartResult cfg sub view' ((firstIncompleteName view').getD "waiting")
      = (none, evsS))
    (hc : (firstIncompleteName view').getD "waiting" = "waiting" ∧
      ∀ s ∈ view', s.assessment_completed_at.isSome)
    (hsel : selectScore cfg sub areqs view' cfg.score_priority = (some sc, none, evsG)) :
    updateTail cfg sub areqs w2 view' evsU =
      ⟨{ w2 with status := "done" }, none,
       evsU ++ evsS ++ evsG ++
         [Event.setScore sub sc.points_earned sc.points_possible]⟩ := by
  unfold updateTail
  rw [hos]
  split
  · rename_i e' evsS' heq
    exact absurd heq (by simp)
  · rename_i evsS' heq
    injection heq with h1 h2
    subst h2
    rw [if_pos hc, hsel]

theorem updateTail_score_err (cfg : WorkflowConfig) (sub : String)
    (areqs : Option (String → Option Reqs)) (w2 : AssessmentWorkflow)
    (view' : List AssessmentWorkflowStep) (evsU : List Event) (evsS : List Event)
    (evsG : List Event) (sc : Option Score) (e : String)
    (hos : onStartResult cfg sub view' ((firstIncompleteName view').getD "waiting")
      = (none, evsS))
    (hc : (firstIncompleteName view').getD "waiting" = "waiting" ∧
      ∀ s ∈ view', s.assessment_completed_at.isSome)
    (hsel : selectScore cfg sub areqs view' cfg.score_priority = (sc, some e, evsG)) :
    updateTail cfg sub areqs w2 view' evsU = ⟨w2, some e, evsU ++ evsS ++ evsG⟩ := by
  unfold updateTail
  rw [hos]
  split
  · rename_i e' evsS' heq
    exact absurd heq (by simp)
  · rename_i evsS' heq
    injection heq with h1 h2
    subst h2
    rw [if_pos hc, hsel]
    rcases sc with _ | scv <;> rfl

/-- The tail never touches the step rows or the identity fields: it only
ever rewrites `status`. -/
theorem updateTail_fields (cfg : WorkflowConfig) (sub : String)
    (areqs : Option (String → Option Reqs)) (w2 : AssessmentWorkflow)
    (view' : List AssessmentWorkflowStep) (evsU : List Event) :
    (updateTail cfg sub areqs w2 view' evsU).wf.steps = w2.steps ∧
    (updateTail cfg sub areqs w2 view' evsU).wf.submission_uuid = w2.submission_uuid := by
  unfold updateTail
  repeat' split
  all_goals exact ⟨rfl, rfl⟩

/-- Re-running the tail on its own result is a no-op on the workflow, as
long as the step views agree on everything the tail looks at, the first
run raised nothing, and the first run did not end at `done`. -/
theorem updateTail_stable (cfg : WorkflowConfig) (sub : String)
    (areqs : Option (String → Option Reqs)) (w2 : AssessmentWorkflow)
    (view' view₂ : List AssessmentWorkflowStep) (evsU evsU₂ : List Event)
    (hfi : firstIncompleteName view₂ = firstIncompleteName view')
    (hosr₂ : onStartResult cfg sub view₂ ((firstIncompleteName view').getD "waiting") =
      onStartResult cfg sub view' ((firstIncompleteName view').getD "waiting"))
    (hass : (∀ s ∈ view₂, s.assessment_completed_at.isSome) ↔
      (∀ s ∈ view', s.assessment_completed_at.isSome))
    (hsel : selectScore cfg sub areqs view₂ cfg.score_priority =
      selectScore cfg sub areqs view' cfg.score_priority)
    (herr : (updateTail cfg sub areqs w2 view' evsU).err = none)
    (hnd : (updateTail cfg sub areqs w2 view' evsU).wf.status ≠ "done") :
    (updateTail cfg sub areqs (updateTail cfg sub areqs w2 view' evsU).wf
        view₂ evsU₂).wf =
      (updateTail cfg sub areqs w2 view' evsU).wf := by
  have hns : (firstIncompleteName view₂).getD "waiting" =
      (firstIncompleteName view').getD "waiting" := by rw [hfi]
  rcases hos : onStartResult cfg sub view' ((firstIncompleteName view').getD "waiting")
    with ⟨eS, evsS⟩
  match eS with
  | some e =>
    rw [updateTail_onstart_err cfg sub areqs w2 view' evsU e evsS hos] at herr
    simp at herr
  | none =>
    by_cases hc : (firstIncompleteName view').getD "waiting" = "waiting" ∧
        ∀ s ∈ view', s.assessment_completed_at.isSome
    · rcases hselv : selectScore cfg sub areqs view' cfg.score_priority
        with ⟨sc, eG, evsG⟩
      match sc, eG with
      | sc, some e =>
        rw [updateTail_score_err cfg sub areqs w2 view' evsU evsS evsG sc e
          hos hc hselv] at herr
        simp at herr
      | some scv, none =>
        rw [updateTail_score_some cfg sub areqs w2 view' evsU evsS evsG scv
          hos hc hselv] at hnd
        simp at hnd
      | none, none =>
        rw [updateTail_score_none cfg sub areqs w2 view' evsU evsS evsG
          hos hc hselv]
        rw [updateTail_score_none cfg sub areqs _ view₂ evsU₂ evsS evsG
          (by rw [hns, hosr₂]; exact hos)
          (by rw [hns]; exact ⟨hc.1, hass.mpr hc.2⟩)
          (by rw [hsel]; exact hselv)]
        simp only
        rw [hns, if_pos (statusWrite_status w2 _)]
    · rw [updateTail_no_scoring cfg sub areqs w2 view' evsU evsS hos hc]
      rw [updateTail_no_scoring cfg sub areqs _ view₂ evsU₂ evsS
        (by rw [hns, hosr₂]; exact hos)
        (by rw [hns]; exact fun hx => hc ⟨hx.1, hass.mp hx.2⟩)]
      simp only
      rw [hns, if_pos (statusWrite_status w2 _)]

/-! ### Unfolding `update_from_assessments` by case -/

theorem update_from_assessments_not_done (cfg : WorkflowConfig) (t : Nat)
    (areqs : Option (String → Option Reqs)) (w : AssessmentWorkflow)
    (h : ¬ w.status = "done")
    (view : List AssessmentWorkflowStep) (w1 : AssessmentWorkflow)
    (hview : w.getSteps cfg = .ok (view, w1))
    (view' : List AssessmentWorkflowStep) (evsU : List Event)
    (hupd : updateSteps cfg t w.submission_uuid areqs view = (view', none, evsU)) :
    w.update_from_assessments cfg t areqs =
      updateTail cfg w.submission_uuid areqs (writeBack w1 view') view' evsU := by
  unfold AssessmentWorkflow.update_from_assessments
  rw [if_neg h]
  simp only [hview, hupd]

theorem update_from_assessments_step_err (cfg : WorkflowConfig) (t : Nat)
    (areqs : Option (String → Option Reqs)) (w : AssessmentWorkflow)
    (h : ¬ w.status = "done")
    (view : List AssessmentWorkflowStep) (w1 : AssessmentWorkflow)
    (hview : w.getSteps cfg = .ok (view, w1))
    (view' : List AssessmentWorkflowStep) (evsU : List Event) (e : String)
    (hupd : updateSteps cfg t w.submission_uuid areqs view = (view', some e, evsU)) :
    w.update_from_assessments cfg t areqs = ⟨writeBack w1 view', some e, evsU⟩ := by
  unfold AssessmentWorkflow.update_from_assessments
  rw [if_neg h]
  simp only [hview, hupd]

theorem update_from_assessments_getsteps_err (cfg : WorkflowConfig) (t : Nat)
    (areqs : Option (String → Option Reqs)) (w : AssessmentWorkflow)
    (h : ¬ w.status = "done") (e : String)
    (hview : w.getSteps cfg = .error e) :
    w.update_from_assessments cfg t areqs = ⟨w, some e, []⟩ := by
  unfold AssessmentWorkflow.update_from_assessments
  rw [if_neg h]
  simp only [hview]

theorem ids_map_eq (g : AssessmentWorkflowStep → AssessmentWorkflowStep)
    (hg : ∀ x, (g x).id = x.id) (l : List AssessmentWorkflowStep) :
    (l.map g).map AssessmentWorkflowStep.id = l.map AssessmentWorkflowStep.id := by
  rw [List.map_map]
  exact List.map_congr_left fun x _ => hg x

/-- `on_start` is never invoked out of a step list whose every row is
unconfigured: the looked-up step either does not exist or resolves to no
module. -/
theorem onStartResult_unconfigured (cfg : WorkflowConfig) (sub : String)
    (l : List AssessmentWorkflowStep) (h : ∀ s ∈ l, cfg.apis s.name = none)
    (n : String) : onStartResult cfg sub l n = (none, []) := by
  unfold onStartResult
  rcases hs : stepForName l n with _ | st
  · rfl
  · have := h st (stepForName_mem hs)
    simp only [AssessmentWorkflowStep.api, this, Option.none_bind]

/-- Appending the two lazily synthesized rows keeps the primary keys
distinct: their keys exceed every existing key. -/
theorem nodup_ids_append_fresh (l : List AssessmentWorkflowStep)
    (a b : AssessmentWorkflowStep) (ha : a.id = freshId l) (hb : b.id = freshId l + 1)
    (h : (l.map AssessmentWorkflowStep.id).Nodup) :
    ((l ++ [a, b]).map AssessmentWorkflowStep.id).Nodup := by
  rw [List.map_append]
  refine List.Nodup.append h ?_ ?_
  · simp only [List.map_cons, List.map_nil, List.nodup_cons, List.mem_singleton,
      List.nodup_nil, and_true, List.not_mem_nil, not_false_iff]
    rw [ha, hb]
    omega
  · intro x hx hx2
    obtain ⟨s, hs, rfl⟩ := List.mem_map.mp hx
    have hlt := mem_id_lt_freshId l s hs
    simp only [List.map_cons, List.map_nil, List.mem_cons, List.mem_singleton,
      List.not_mem_nil, or_false] at hx2
    rcases hx2 with h1 | h1
    · rw [h1, ha] at hlt
      omega
    · rw [h1, hb] at hlt
      omega

/-- Saving an update of the whole ordered view rewrites every stored row in
place. -/
theorem writeBack_all (w1 : AssessmentWorkflow)
    (u : AssessmentWorkflowStep → AssessmentWorkflowStep)
    (hu : ∀ x, (u x).id = x.id)
    (hn : (w1.steps.map AssessmentWorkflowStep.id).Nodup) :
    writeBack w1 ((sortSteps w1.steps).map u) =
      { w1 with steps := w1.steps.map u } := by
  have h1' := writeBack_eq w1 u hu (fun _ => true) hn
  rw [List.filter_true] at h1'
  rw [h1']
  have hmap : (w1.steps.map fun s => if (fun _ => true) s then u s else s) =
      w1.steps.map u :=
    List.map_congr_left fun x _ => rfl
  rw [hmap]

/-- C3: re-running `update_from_assessments` with identical requirements
right after a successful run changes neither the status nor any stored
step row (the module tests and `get_score` are deterministic functions in
the model).  The primary keys of the step rows are assumed distinct, as the
database guarantees. -/
theorem update_from_assessments_idempotent (cfg : WorkflowConfig) (t₁ t₂ : Nat)
    (areqs : Option (String → Option Reqs)) (w : AssessmentWorkflow)
    (hids : (w.steps.map AssessmentWorkflowStep.id).Nodup)
    (h1 : (w.update_from_assessments cfg t₁ areqs).err = none) :
    ((w.update_from_assessments cfg t₁ areqs).wf.update_from_assessments cfg t₂
        areqs).wf.status = (w.update_from_assessments cfg t₁ areqs).wf.status ∧
    ∀ s ∈ (w.update_from_assessments cfg t₁ areqs).wf.steps,
      s ∈ ((w.update_from_assessments cfg t₁ areqs).wf.update_from_assessments cfg t₂
        areqs).wf.steps := by
  by_cases hdone : w.status = "done"
  · rw [update_from_assessments_done_noop cfg t₁ areqs w hdone,
      update_from_assessments_done_noop cfg t₂ areqs w hdone]
    exact ⟨rfl, fun s hs => hs⟩
  · by_cases hd2 : (w.update_from_assessments cfg t₁ areqs).wf.status = "done"
    · rw [update_from_assessments_done_noop cfg t₂ areqs _ hd2]
      exact ⟨rfl, fun s hs => hs⟩
    · by_cases hfe : (sortSteps w.steps).filter (fun s => (cfg.apis s.name).isSome) = []
      · -- Case B: no recognized rows; `_get_steps` attempts the default pair.
        -- The synthesis can only have succeeded (h1: the first call did not
        -- raise), so `peer` and `self` are both configured step names.
        have hpc : ((cfg.apis "peer").isSome && (cfg.apis "self").isSome) = true := by
          by_contra hpc
          rw [update_from_assessments_getsteps_err cfg t₁ areqs w hdone
            "AttributeError" (getSteps_empty_err cfg w hfe hpc)] at h1
          simp at h1
        have hview : w.getSteps cfg =
            .ok (sortSteps (w.steps ++ defaultRows w.steps),
             { w with steps := w.steps ++ defaultRows w.steps }) :=
          getSteps_empty cfg w hfe hpc
        rcases hupd : updateSteps cfg t₁ w.submission_uuid areqs
            (sortSteps (w.steps ++ defaultRows w.steps))
          with ⟨view', errU, evsU⟩
        match errU with
        | some e =>
          rw [update_from_assessments_step_err cfg t₁ areqs w hdone _ _ hview
            view' evsU e hupd] at h1
          simp at h1
        | none =>
          obtain ⟨hallok, hview'⟩ :=
            updateSteps_ok_elim cfg t₁ w.submission_uuid areqs _ view' evsU hupd
          have hueq := update_from_assessments_not_done cfg t₁ areqs w hdone _ _
            hview view' evsU hupd
          have hkey : ∀ x : AssessmentWorkflowStep,
              (x.update cfg t₁ w.submission_uuid areqs).step.id = x.id ∧
              (x.update cfg t₁ w.submission_uuid areqs).step.name = x.name ∧
              (x.update cfg t₁ w.submission_uuid areqs).step.order_num = x.order_num :=
            fun x => (step_update_fields cfg t₁ w.submission_uuid areqs x).1
          have hnod1 : ((w.steps ++ defaultRows w.steps).map
              AssessmentWorkflowStep.id).Nodup :=
            nodup_ids_append_fresh w.steps ⟨freshId w.steps, "peer", 0, none, none⟩
              ⟨freshId w.steps + 1, "self", 1, none, none⟩ rfl rfl hids
          have hwb : writeBack { w with steps := w.steps ++ defaultRows w.steps }
              view' =
              { w with steps := ((w.steps ++ defaultRows w.steps).map
                (fun s => (s.update cfg t₁ w.submission_uuid areqs).step)) } := by
            rw [hview']
            exact writeBack_all { w with steps := w.steps ++ defaultRows w.steps }
              _ (fun x => (hkey x).1) hnod1
          have hukey : ∀ x : AssessmentWorkflowStep,
              ((fun (s : AssessmentWorkflowStep) =>
                  (s.update cfg t₁ w.submission_uuid areqs).step) x).order_num
                  = x.order_num ∧
              ((fun (s : AssessmentWorkflowStep) =>
                  (s.update cfg t₁ w.submission_uuid areqs).step) x).id = x.id :=
            fun x => ⟨(hkey x).2.2, (hkey x).1⟩
          have hsteps₁ : (w.update_from_assessments cfg t₁ areqs).wf.steps =
              (w.steps ++ defaultRows w.steps).map
                (fun s => (s.update cfg t₁ w.submission_uuid areqs).step) := by
            rw [hueq, (updateTail_fields cfg w.submission_uuid areqs _ view' evsU).1,
              hwb]
          have huuid₁ : (w.update_from_assessments cfg t₁ areqs).wf.submission_uuid =
              w.submission_uuid := by
            rw [hueq, (updateTail_fields cfg w.submission_uuid areqs _ view' evsU).2,
              hwb]
          have hsort₂ : sortSteps (w.update_from_assessments cfg t₁ areqs).wf.steps =
              (sortSteps (w.steps ++ defaultRows w.steps)).map
                (fun s => (s.update cfg t₁ w.submission_uuid areqs).step) := by
            rw [hsteps₁]
            exact sortSteps_map _ hukey _
          have hfcomm : (sortSteps
                (w.update_from_assessments cfg t₁ areqs).wf.steps).filter
                (fun s => (cfg.apis s.name).isSome) =
              ((sortSteps (w.steps ++ defaultRows w.steps)).filter
                (fun s => (cfg.apis s.name).isSome)).map
                (fun s => (s.update cfg t₁ w.submission_uuid areqs).step) := by
            rw [hsort₂, List.filter_map]
            rw [List.filter_congr (fun x _ => by
              simp only [Function.comp]
              rw [(hkey x).2.1])]
          have hnodwf₁ : ((w.update_from_assessments cfg t₁ areqs).wf.steps.map
              AssessmentWorkflowStep.id).Nodup := by
            rw [hsteps₁, ids_map_eq _ (fun x => (hukey x).2)]
            exact hnod1
          have hfailopenV : ∀ s ∈ view', (cfg.apis s.name).isSome = false →
              s.submitter_completed_at.isSome ∧ s.assessment_completed_at.isSome := by
            rw [hview']
            intro s hs hp
            obtain ⟨x, hx, rfl⟩ := List.mem_map.mp hs
            simp only [(hkey x).2.1] at hp
            have hxnone : cfg.apis x.name = none := by
              cases hc : cfg.apis x.name with
              | none => rfl
              | some m =>
                rw [hc] at hp
                simp at hp
            obtain ⟨-, h1', h2', -⟩ :=
              (step_update_fail_open cfg t₁ w.submission_uuid areqs x).1 hxnone
            exact ⟨h1', h2'⟩
          have hfixV : ∀ s ∈ view',
              (s.update cfg t₂ w.submission_uuid areqs).step = s ∧
              (s.update cfg t₂ w.submission_uuid areqs).err = none := by
            rw [hview']
            intro s hs
            obtain ⟨x, hx, rfl⟩ := List.mem_map.mp hs
            exact step_update_fixpoint cfg t₁ t₂ w.submission_uuid areqs x (hallok x hx)
          by_cases hF : (sortSteps (w.steps ++ defaultRows w.steps)).filter
              (fun s => (cfg.apis s.name).isSome) = []
          · -- Sub-case B2 is impossible: `peer` is a configured step name, so
            -- the synthesized peer row itself passes the recognition filter of
            -- the extended row set.
            exfalso
            have hmem : (⟨freshId w.steps, "peer", 0, none, none⟩ :
                AssessmentWorkflowStep) ∈
                sortSteps (w.steps ++ defaultRows w.steps) :=
              (sortSteps_perm _).mem_iff.mpr
                (List.mem_append_right _ (by simp [defaultRows]))
            have hp : (cfg.apis (⟨freshId w.steps, "peer", 0, none, none⟩ :
                AssessmentWorkflowStep).name).isSome = true := by
              have hboth := (Bool.and_eq_true _ _).mp hpc
              simpa using hboth.1
            have hin : (⟨freshId w.steps, "peer", 0, none, none⟩ :
                AssessmentWorkflowStep) ∈
                (sortSteps (w.steps ++ defaultRows w.steps)).filter
                  (fun s => (cfg.apis s.name).isSome) :=
              List.mem_filter.mpr ⟨hmem, hp⟩
            rw [hF] at hin
            exact absurd hin (List.not_mem_nil _)
          · -- Sub-case B1: part of the synthesized pair is recognized; the second
            -- call sees the same recognized view, which is a fixed point.
            have hview₂eq : view'.filter (fun s => (cfg.apis s.name).isSome) =
                ((sortSteps (w.steps ++ defaultRows w.steps)).filter
                  (fun s => (cfg.apis s.name).isSome)).map
                  (fun s => (s.update cfg t₁ w.submission_uuid areqs).step) := by
              rw [hview', List.filter_map]
              rw [List.filter_congr (fun x _ => by
                simp only [Function.comp]
                rw [(hkey x).2.1])]
            have hfilter₂ : (sortSteps
                (w.update_from_assessments cfg t₁ areqs).wf.steps).filter
                (fun s => (cfg.apis s.name).isSome) =
                view'.filter (fun s => (cfg.apis s.name).isSome) := by
              rw [hfcomm, hview₂eq]
            have hne₂ : (sortSteps
                (w.update_from_assessments cfg t₁ areqs).wf.steps).filter
                (fun s => (cfg.apis s.name).isSome) ≠ [] := by
              rw [hfilter₂, hview₂eq]
              intro hcontra
              exact hF (List.map_eq_nil_iff.mp hcontra)
            have hview₂ := getSteps_nonempty cfg _ hne₂
            rw [hfilter₂] at hview₂
            have hokF : ∀ s ∈ view'.filter (fun s => (cfg.apis s.name).isSome),
                (s.update cfg t₂
                  (w.update_from_assessments cfg t₁ areqs).wf.submission_uuid
                  areqs).err = none := by
              rw [huuid₁]
              intro s hs
              exact (hfixV s (List.mem_of_mem_filter hs)).2
            obtain ⟨evs₂, hupd₂⟩ := updateSteps_all_ok cfg t₂
              (w.update_from_assessments cfg t₁ areqs).wf.submission_uuid areqs
              (view'.filter (fun s => (cfg.apis s.name).isSome)) hokF
            have hmapfix : (view'.filter (fun s => (cfg.apis s.name).isSome)).map
                (fun s => (s.update cfg t₂
                  (w.update_from_assessments cfg t₁ areqs).wf.submission_uuid
                  areqs).step) =
                view'.filter (fun s => (cfg.apis s.name).isSome) := by
              rw [huuid₁]
              calc (view'.filter (fun s => (cfg.apis s.name).isSome)).map (fun s => (s.update cfg t₂ w.submission_uuid areqs).step)
                  = (view'.filter (fun s => (cfg.apis s.name).isSome)).map (fun x => x) :=
                    List.map_congr_left fun x hx =>
                      (hfixV x (List.mem_of_mem_filter hx)).1
                _ = view'.filter (fun s => (cfg.apis s.name).isSome) :=
                    List.map_id' _
            rw [hmapfix] at hupd₂
            have hwb₂ : writeBack (w.update_from_assessments cfg t₁ areqs).wf
                (view'.filter (fun s => (cfg.apis s.name).isSome)) =
                (w.update_from_assessments cfg t₁ areqs).wf := by
              have hweq := writeBack_eq (w.update_from_assessments cfg t₁ areqs).wf
                (fun x => x) (fun x => rfl) (fun s => (cfg.apis s.name).isSome) hnodwf₁
              rw [List.map_id', hfilter₂] at hweq
              rw [hweq]
              have hmapid : ((w.update_from_assessments cfg t₁ areqs).wf.steps.map
                  fun s => if (cfg.apis s.name).isSome then s else s) =
                  (w.update_from_assessments cfg t₁ areqs).wf.steps := by
                calc ((w.update_from_assessments cfg t₁ areqs).wf.steps.map
                    fun s => if (cfg.apis s.name).isSome then s else s)
                    = (w.update_from_assessments cfg t₁ areqs).wf.steps.map
                      (fun x => x) := List.map_congr_left fun x _ => by split <;> rfl
                  _ = _ := List.map_id' _
              rw [hmapid]
            have hueq₂ : (w.update_from_assessments cfg t₁ areqs).wf.update_from_assessments
                cfg t₂ areqs =
                updateTail cfg w.submission_uuid areqs
                  (w.update_from_assessments cfg t₁ areqs).wf
                  (view'.filter (fun s => (cfg.apis s.name).isSome)) evs₂ := by
              have hx := update_from_assessments_not_done cfg t₂ areqs
                (w.update_from_assessments cfg t₁ areqs).wf hd2 _ _ hview₂ _ evs₂ hupd₂
              rw [hx, hwb₂, huuid₁]
            have hfi := firstIncompleteName_filter (fun s => (cfg.apis s.name).isSome)
              view' (fun s hs hp => (hfailopenV s hs hp).1)
            have hosr := onStartResult_filter cfg w.submission_uuid view'
              ((firstIncompleteName view').getD "waiting")
            have hass := all_assessed_filter (fun s => (cfg.apis s.name).isSome)
              view' (fun s hs hp => (hfailopenV s hs hp).2)
            have hsel := selectScore_filter cfg w.submission_uuid areqs view'
              cfg.score_priority
            rw [hueq] at h1 hd2
            have hstable := updateTail_stable cfg w.submission_uuid areqs
              (writeBack { w with steps := w.steps ++ defaultRows w.steps } view')
              view' (view'.filter (fun s => (cfg.apis s.name).isSome)) evsU evs₂
              hfi hosr hass hsel h1 hd2
            rw [hueq₂, hueq, hstable]
            exact ⟨rfl, fun s hs => hs⟩
      · -- Case A: recognized steps exist; no lazy synthesis happens
        have hview := getSteps_nonempty cfg w hfe
        rcases hupd : updateSteps cfg t₁ w.submission_uuid areqs
            ((sortSteps w.steps).filter fun s => (cfg.apis s.name).isSome)
          with ⟨view', errU, evsU⟩
        match errU with
        | some e =>
          rw [update_from_assessments_step_err cfg t₁ areqs w hdone _ w hview
            view' evsU e hupd] at h1
          simp at h1
        | none =>
          obtain ⟨hallok, hview'⟩ :=
            updateSteps_ok_elim cfg t₁ w.submission_uuid areqs _ view' evsU hupd
          have hueq := update_from_assessments_not_done cfg t₁ areqs w hdone _ w
            hview view' evsU hupd
          have hkey : ∀ x : AssessmentWorkflowStep,
              (x.update cfg t₁ w.submission_uuid areqs).step.id = x.id ∧
              (x.update cfg t₁ w.submission_uuid areqs).step.name = x.name ∧
              (x.update cfg t₁ w.submission_uuid areqs).step.order_num = x.order_num :=
            fun x => (step_update_fields cfg t₁ w.submission_uuid areqs x).1
          have hwb : writeBack w view' =
              { w with steps := w.steps.map fun s =>
                if (cfg.apis s.name).isSome then
                  (s.update cfg t₁ w.submission_uuid areqs).step else s } := by
            rw [hview']
            exact writeBack_eq w _ (fun x => (hkey x).1) _ hids
          have hsteps₁ : (w.update_from_assessments cfg t₁ areqs).wf.steps =
              w.steps.map fun s =>
                if (cfg.apis s.name).isSome then
                  (s.update cfg t₁ w.submission_uuid areqs).step else s := by
            rw [hueq, (updateTail_fields cfg w.submission_uuid areqs _ view' evsU).1,
              hwb]
          have huuid₁ : (w.update_from_assessments cfg t₁ areqs).wf.submission_uuid =
              w.submission_uuid := by
            rw [hueq, (updateTail_fields cfg w.submission_uuid areqs _ view' evsU).2,
              hwb]
          have haukey : ∀ x : AssessmentWorkflowStep,
              ((fun s => if (cfg.apis s.name).isSome then
                (s.update cfg t₁ w.submission_uuid areqs).step else s) x).order_num
                  = x.order_num ∧
              ((fun s => if (cfg.apis s.name).isSome then
                (s.update cfg t₁ w.submission_uuid areqs).step else s) x).id = x.id := by
            intro x
            by_cases hx : (cfg.apis x.name).isSome
            · simp only [if_pos hx]
              exact ⟨(hkey x).2.2, (hkey x).1⟩
            · simp [if_neg hx]
          have hauname : ∀ x : AssessmentWorkflowStep,
              ((fun s => if (cfg.apis s.name).isSome then
                (s.update cfg t₁ w.submission_uuid areqs).step else s) x).name
                  = x.name := by
            intro x
            by_cases hx : (cfg.apis x.name).isSome
            · simp only [if_pos hx]
              exact (hkey x).2.1
            · simp only [if_neg hx]
          have hsort₂ : sortSteps (w.update_from_assessments cfg t₁ areqs).wf.steps =
              (sortSteps w.steps).map fun s =>
                if (cfg.apis s.name).isSome then
                  (s.update cfg t₁ w.submission_uuid areqs).step else s := by
            rw [hsteps₁]
            exact sortSteps_map _ haukey w.steps
          have hfilter₂ : (sortSteps
                (w.update_from_assessments cfg t₁ areqs).wf.steps).filter
                (fun s => (cfg.apis s.name).isSome) = view' := by
            rw [hsort₂, List.filter_map]
            rw [List.filter_congr (fun x _ => by
              simp only [Function.comp]
              rw [hauname x])]
            rw [hview']
            apply List.map_congr_left
            intro x hx
            have hpx : (cfg.apis x.name).isSome := by
              simpa using (List.mem_filter.mp hx).2
            simp only [if_pos hpx]
          have hne₂ : (sortSteps
                (w.update_from_assessments cfg t₁ areqs).wf.steps).filter
                (fun s => (cfg.apis s.name).isSome) ≠ [] := by
            rw [hfilter₂, hview']
            intro hcontra
            exact hfe (List.map_eq_nil_iff.mp hcontra)
          have hview₂ := getSteps_nonempty cfg _ hne₂
          rw [hfilter₂] at hview₂
          have hfix : ∀ x ∈ view',
              (x.update cfg t₂ w.submission_uuid areqs).err = none ∧
              (x.update cfg t₂ w.submission_uuid areqs).step = x := by
            intro x hx
            rw [hview'] at hx
            obtain ⟨sOrig, hsOrig, rfl⟩ := List.mem_map.mp hx
            obtain ⟨hstep, herr2⟩ := step_update_fixpoint cfg t₁ t₂ w.submission_uuid
              areqs sOrig (hallok sOrig hsOrig)
            exact ⟨herr2, hstep⟩
          obtain ⟨evs₂, hupd₂⟩ := updateSteps_all_ok cfg t₂ w.submission_uuid areqs
            view' (fun x hx => (hfix x hx).1)
          have hmapfix : view'.map
              (fun s => (s.update cfg t₂ w.submission_uuid areqs).step) = view' := by
            calc view'.map (fun s => (s.update cfg t₂ w.submission_uuid areqs).step)
                = view'.map (fun x => x) :=
                  List.map_congr_left fun x hx => (hfix x hx).2
              _ = view' := List.map_id' view'
          rw [hmapfix] at hupd₂
          have hnod₁ : ((w.update_from_assessments cfg t₁ areqs).wf.steps.map
              AssessmentWorkflowStep.id).Nodup := by
            rw [hsteps₁, ids_map_eq _ (fun x => (haukey x).2)]
            exact hids
          have hwb₂ : writeBack (w.update_from_assessments cfg t₁ areqs).wf view' =
              (w.update_from_assessments cfg t₁ areqs).wf := by
            have hweq := writeBack_eq (w.update_from_assessments cfg t₁ areqs).wf
              (fun x => x) (fun x => rfl) (fun s => (cfg.apis s.name).isSome) hnod₁
            rw [List.map_id', hfilter₂] at hweq
            rw [hweq]
            have hmapid : ((w.update_from_assessments cfg t₁ areqs).wf.steps.map
                fun s => if (cfg.apis s.name).isSome then s else s) =
                (w.update_from_assessments cfg t₁ areqs).wf.steps := by
              calc ((w.update_from_assessments cfg t₁ areqs).wf.steps.map
                  fun s => if (cfg.apis s.name).isSome then s else s)
                  = (w.update_from_assessments cfg t₁ areqs).wf.steps.map
                    (fun x => x) := List.map_congr_left fun x _ => by split <;> rfl
                _ = _ := List.map_id' _
            rw [hmapid]
          have hueq₂ : (w.update_from_assessments cfg t₁ areqs).wf.update_from_assessments
              cfg t₂ areqs =
              updateTail cfg w.submission_uuid areqs
                (w.update_from_assessments cfg t₁ areqs).wf view' evs₂ := by
            have hx := update_from_assessments_not_done cfg t₂ areqs
              (w.update_from_assessments cfg t₁ areqs).wf hd2 view'
              (w.update_from_assessments cfg t₁ areqs).wf hview₂ view' evs₂
              (by rw [huuid₁]; exact hupd₂)
            rw [hx, hwb₂, huuid₁]
          rw [hueq] at h1 hd2
          have hstable := updateTail_stable cfg w.submission_uuid areqs
            (writeBack w view') view' view' evsU evs₂ rfl rfl Iff.rfl rfl h1 hd2
          rw [hueq₂, hueq, hstable]
          exact ⟨rfl, fun s hs => hs⟩

/-- Witness for C3 at a concrete one-step workflow with distinct keys. -/
theorem update_from_assessments_idempotent_witness :
    ((wfPeerFresh.steps.map AssessmentWorkflowStep.id).Nodup ∧
      (wfPeerFresh.update_from_assessments cfgPeerBare 3 none).err = none) ∧
    (((wfPeerFresh.update_from_assessments cfgPeerBare 3
        none).wf.update_from_assessments cfgPeerBare 7 none).wf.status =
      (wfPeerFresh.update_from_assessments cfgPeerBare 3 none).wf.status ∧
    ∀ s ∈ (wfPeerFresh.update_from_assessments cfgPeerBare 3 none).wf.steps,
      s ∈ ((wfPeerFresh.update_from_assessments cfgPeerBare 3
        none).wf.update_from_assessments cfgPeerBare 7 none).wf.steps) :=
  ⟨⟨by decide, by decide⟩,
   update_from_assessments_idempotent cfgPeerBare 3 7 none wfPeerFresh
     (by decide) (by decide)⟩

/-- C9 counterexample: `status_details` is not a total, read-only per-step
projection.  A stored step whose module does not resolve is omitted from
the returned mapping (instead of receiving a fail-open entry), and on a
workflow with no recognized rows under a configuration where both `peer`
and `self` are configured, the `_get_steps` call persists the two default
rows — the stored steps do change. -/
theorem status_details_not_total_readonly_counterexample :
    ((⟨1, "bogus", 1, none, none⟩ : AssessmentWorkflowStep) ∈ wfPeerBogus.steps ∧
      (wfPeerBogus.status_details cfgPeerBare (some fun _ => none)).1 =
        .ok [("peer", true, true)] ∧
      ∀ e ∈ [(("peer" : String), true, true)], e.1 ≠ "bogus") ∧
    (wfNoSteps.status_details cfgPeerSelf (some fun _ => none)).2.steps ≠
      wfNoSteps.steps :=
  ⟨⟨by decide, by rfl, by decide⟩, by decide⟩

/-- The `status_details` loop, characterized on a success: every returned
entry belongs to a listed step whose module resolves and records exactly
the two live test answers (per-test fail-open defaults applied), and every
listed step whose module resolves contributes an entry under its name. -/
theorem statusDetailsLoop_char (cfg : WorkflowConfig) (sub : String)
    (areqs : Option (String → Option Reqs)) :
    ∀ (L : List AssessmentWorkflowStep) (l : List (String × Bool × Bool)),
      statusDetailsLoop cfg sub areqs L = .ok l →
      (∀ e ∈ l, ∃ s ∈ L, ∃ m, cfg.apis s.name = some m ∧ e.1 = s.name ∧
        (m.submitter_is_finished.getD fun _ _ => Except.ok true) sub
          (getReqsFor areqs s.name) = .ok e.2.1 ∧
        (m.assessment_is_finished.getD fun _ _ => Except.ok true) sub
          (getReqsFor areqs s.name) = .ok e.2.2) ∧
      (∀ s ∈ L, ∀ m, cfg.apis s.name = some m → ∃ e ∈ l, e.1 = s.name) := by
  cases areqs with
  | none =>
    intro L
    induction L with
    | nil =>
      intro l h
      unfold statusDetailsLoop at h
      injection h with h
      subst h
      exact ⟨fun e he => absurd he (List.not_mem_nil e),
             fun s hs => absurd hs (List.not_mem_nil s)⟩
    | cons s rest ih =>
      intro l h
      rcases hapi : cfg.apis s.name with _ | m
      · simp only [statusDetailsLoop, hapi] at h
        obtain ⟨hmem, hcov⟩ := ih l h
        refine ⟨fun e he => ?_, fun x hx mx hmx => ?_⟩
        · obtain ⟨s', hs', rest'⟩ := hmem e he
          exact ⟨s', List.mem_cons_of_mem s hs', rest'⟩
        · rcases List.mem_cons.mp hx with rfl | hx'
          · rw [hapi] at hmx
            exact absurd hmx (by simp)
          · exact hcov x hx' mx hmx
      · simp only [statusDetailsLoop, hapi] at h
        exact absurd h (by simp)
  | some rm =>
    intro L
    induction L with
    | nil =>
      intro l h
      unfold statusDetailsLoop at h
      injection h with h
      subst h
      exact ⟨fun e he => absurd he (List.not_mem_nil e),
             fun s hs => absurd hs (List.not_mem_nil s)⟩
    | cons s rest ih =>
      intro l h
      rcases hapi : cfg.apis s.name with _ | m
      · simp only [statusDetailsLoop, hapi] at h
        obtain ⟨hmem, hcov⟩ := ih l h
        refine ⟨fun e he => ?_, fun x hx mx hmx => ?_⟩
        · obtain ⟨s', hs', rest'⟩ := hmem e he
          exact ⟨s', List.mem_cons_of_mem s hs', rest'⟩
        · rcases List.mem_cons.mp hx with rfl | hx'
          · rw [hapi] at hmx
            exact absurd hmx (by simp)
          · exact hcov x hx' mx hmx
      · simp only [statusDetailsLoop, hapi] at h
        rcases hsubt : (m.submitter_is_finished.getD fun _ _ => Except.ok true) sub
            (some ((rm s.name).getD [])) with e1 | complete
        · simp only [hsubt] at h
          exact absurd h (by simp)
        · simp only [hsubt] at h
          rcases hasst : (m.assessment_is_finished.getD fun _ _ => Except.ok true) sub
              (some ((rm s.name).getD [])) with e2 | graded
          · simp only [hasst] at h
            exact absurd h (by simp)
          · simp only [hasst] at h
            rcases hrest : statusDetailsLoop cfg sub (some rm) rest with e3 | l'
            · rw [hrest] at h
              exact absurd h (by simp [Except.map])
            · rw [hrest] at h
              have hl : l = (s.name, complete, graded) :: l' := by
                simpa [Except.map] using h.symm
              subst hl
              obtain ⟨hmem, hcov⟩ := ih l' hrest
              refine ⟨fun e he => ?_, fun x hx mx hmx => ?_⟩
              · rcases List.mem_cons.mp he with rfl | he'
                · exact ⟨s, List.mem_cons_self s rest, m, hapi, rfl, hsubt, hasst⟩
                · obtain ⟨s', hs', rest'⟩ := hmem e he'
                  exact ⟨s', List.mem_cons_of_mem s hs', rest'⟩
              · rcases List.mem_cons.mp hx with rfl | hx'
                · exact ⟨(x.name, complete, graded), List.mem_cons_self _ _, rfl⟩
                · obtain ⟨e, he, hname⟩ := hcov x hx' mx hmx
                  exact ⟨e, List.mem_cons_of_mem _ he, hname⟩

/-- C9 (amended): `status_details` never latches a step timestamp and never
changes the workflow's identity fields or status — the only stored-state
change it can make is `_get_steps` appending the two lazily synthesized
default rows (which happens only when no stored row is recognized and both
`peer` and `self` are configured; otherwise the synthesis raises and
nothing changes) — and, on success, its entries are exactly the steps of
the retrieved view whose module resolves, each carrying the two live
completion tests (with the per-test fail-open default when a resolved
module omits a test); steps whose module does not resolve are omitted. -/
theorem status_details_readonly_live (cfg : WorkflowConfig)
    (areqs : Option (String → Option Reqs)) (w : AssessmentWorkflow) :
    ((w.status_details cfg areqs).2.status = w.status ∧
     (w.status_details cfg areqs).2.submission_uuid = w.submission_uuid ∧
     ∀ s ∈ w.steps, s ∈ (w.status_details cfg areqs).2.steps) ∧
    ∀ view w1, w.getSteps cfg = .ok (view, w1) →
      ∀ l, (w.status_details cfg areqs).1 = .ok l →
        (∀ e ∈ l, ∃ s ∈ view, ∃ m, cfg.apis s.name = some m ∧
          e.1 = s.name ∧
          (m.submitter_is_finished.getD fun _ _ => Except.ok true) w.submission_uuid
            (getReqsFor areqs s.name) = .ok e.2.1 ∧
          (m.assessment_is_finished.getD fun _ _ => Except.ok true) w.submission_uuid
            (getReqsFor areqs s.name) = .ok e.2.2) ∧
        (∀ s ∈ view, ∀ m, cfg.apis s.name = some m → ∃ e ∈ l, e.1 = s.name) := by
  constructor
  · by_cases hfe : (sortSteps w.steps).filter (fun s => (cfg.apis s.name).isSome) = []
    · by_cases hps : ((cfg.apis "peer").isSome && (cfg.apis "self").isSome) = true
      · unfold AssessmentWorkflow.status_details
        rw [getSteps_empty cfg w hfe hps]
        exact ⟨rfl, rfl, fun s hs => List.mem_append_left _ hs⟩
      · unfold AssessmentWorkflow.status_details
        rw [getSteps_empty_err cfg w hfe hps]
        exact ⟨rfl, rfl, fun s hs => hs⟩
    · unfold AssessmentWorkflow.status_details
      rw [getSteps_nonempty cfg w hfe]
      exact ⟨rfl, rfl, fun s hs => hs⟩
  · intro view w1 hv l h
    have hsd1 : (w.status_details cfg areqs).1 =
        statusDetailsLoop cfg w.submission_uuid areqs view := by
      unfold AssessmentWorkflow.status_details
      rw [hv]
    rw [hsd1] at h
    exact statusDetailsLoop_char cfg w.submission_uuid areqs view l h

/-- Witness for C9 (amended) at a concrete configured workflow. -/
theorem status_details_readonly_live_witness :
    (wfPeerFresh.getSteps cfgPeerBare =
        .ok ([⟨0, "peer", 0, none, none⟩], wfPeerFresh) ∧
     (wfPeerFresh.status_details cfgPeerBare (some fun _ => none)).1 =
        .ok [("peer", true, true)]) ∧
    ∃ s ∈ [(⟨0, "peer", 0, none, none⟩ : AssessmentWorkflowStep)], ∃ m,
      cfgPeerBare.apis s.name = some m ∧
      (("peer", true, true) : String × Bool × Bool).1 = s.name ∧
      (m.submitter_is_finished.getD fun _ _ => Except.ok true)
        wfPeerFresh.submission_uuid
        (getReqsFor (some fun _ => none) s.name) = .ok true ∧
      (m.assessment_is_finished.getD fun _ _ => Except.ok true)
        wfPeerFresh.submission_uuid
        (getReqsFor (some fun _ => none) s.name) = .ok true :=
  ⟨⟨by rfl, by rfl⟩,
   ((status_details_readonly_live cfgPeerBare (some fun _ => none)
      wfPeerFresh).2 [⟨0, "peer", 0, none, none⟩] wfPeerFresh (by rfl)
      [("peer", true, true)] (by rfl)).1
     ("peer", true, true) (by decide)⟩
